import Mathlib

/-!
Verification of the metadata-enrichment pipeline of the `date-path` photo
journal application.

The pipeline is embedded shallowly from the TypeScript sources:
* `supabase/functions/process-photo-metadata/index.ts` (namespace
  `ProcessPhotoMetadata`): the full enrichment pipeline — day grouping,
  album/day coordinate selection, photo-coordinate backfill, cached reverse
  geocoding with iterative per-day name propagation, and day-title/day-entry
  generation.
* `supabase/functions/update-album-metadata/index.ts` (namespace
  `UpdateAlbumMetadata`): the non-mutating re-run variant.
* `src/utils/dayTitleFormatter.ts` (namespace `DayTitleFormatter`).
* the `update-day-titles` edge function (namespace `UpdateDayTitles`).

Numbers are embedded as `ℚ` (coordinates) and `ℤ` (epoch milliseconds);
JavaScript truthiness tests on optional numbers and strings are embedded
explicitly.  The reverse-geocoding collaborator is a parameter
`g : ℚ → ℚ → Option String` (deterministic oracle), and the haversine
proximity test `calculateHaversineDistance … < threshold` is a parameter
`near : Coord → Coord → Bool`, since the source computes it with real-valued
trigonometry; all theorems quantify over these parameters, and concrete
instantiations in counterexamples only query `near` at pairs of equal
coordinates (where the source's haversine is exactly 0, below every
threshold) or keep it irrelevant.
-/

/-- A coordinate pair (latitude, longitude), embedded as rationals. -/
abbrev Coord := ℚ × ℚ

/-- JavaScript truthiness of an optional number: `undefined`/`null` and `0`
are falsy (`p.latitude && p.longitude` style checks). -/
def truthyNum (o : Option ℚ) : Bool :=
  match o with
  | none => false
  | some x => x != 0

/-- JavaScript truthiness of an optional string: `undefined`/`null` and the
empty string are falsy (`!photo.locationName` style checks). -/
def truthyStr (o : Option String) : Bool :=
  match o with
  | none => false
  | some s => s != ""

/-- `x || ''` on an optional string, as JavaScript evaluates it. -/
def jsOrEmpty (o : Option String) : String :=
  match o with
  | none => ""
  | some s => if s == "" then "" else s

/-- One photo's metadata relevant to enrichment (interface `PhotoMetadata` of
`process-photo-metadata/index.ts`; `date` is the instant in epoch
milliseconds, matching `new Date(p.date).getTime()`). -/
structure Photo where
  id : String
  date : Option ℤ
  latitude : Option ℚ
  longitude : Option ℚ
  locationName : Option String
  dayTitle : Option String
deriving DecidableEq, Repr

/-- The photo has a (truthy) coordinate pair: `p.latitude && p.longitude`. -/
def hasCoords (p : Photo) : Bool :=
  truthyNum p.latitude && truthyNum p.longitude

/-- Milliseconds per day, as used by `Date` arithmetic. -/
def msPerDay : ℤ := 86400000

/-- The day key of a timestamp: the UTC calendar day of the instant, as
produced by `new Date(t).toISOString().split('T')[0]` (embedded as the epoch
day number; the ISO date strings of distinct epoch days compare in the same
order as the day numbers). -/
def dayKeyOf (t : ℤ) : ℤ := t.fdiv msPerDay

/-- One `toFixed(4)` key component, as the rendered string distinguishes
them: the sign prefix (ECMA-262 prepends `-` exactly when the input is
negative, so `"-0.0000"` and `"0.0000"` are different keys) and the scaled
rounded magnitude.  `(x.num < 0)` decides `x < 0` since denominators are
positive, and the magnitude is `floor(|x| * 10000 + 1/2)` computed on the
numerator/denominator. -/
def quant (x : ℚ) : Bool × ℕ :=
  if x.num < 0 then (true, ((20000 * (-x.num) + x.den).fdiv (2 * x.den)).toNat)
  else (false, ((20000 * x.num + x.den).fdiv (2 * x.den)).toNat)

/-- The quantized cache key of a coordinate pair
(`"${lat.toFixed(4)},${lon.toFixed(4)}"`). -/
def quantKey (c : Coord) : (Bool × ℕ) × (Bool × ℕ) := (quant c.1, quant c.2)

/-- `Number` re-parsing of one quantized key component
(`coordKey.split(',').map(Number)`): the signed rational `±m / 10000`.
`Number("-0.0000")` is `-0`, which equals `0` as a rational — so re-parsing
the key `"-0.0000"` and re-rendering it yields `"0.0000"`, an asymmetry the
key type preserves (`quant (unquant (true, 0)) = (false, 0)`). -/
def unquant (k : Bool × ℕ) : ℚ :=
  Rat.divInt (if k.1 then -(k.2 : ℤ) else (k.2 : ℤ)) 10000

/-- Civil (Gregorian) date from an epoch day number: `(year, month 1–12,
day-of-month)`, the components `getFullYear`/`getMonth`/`getDate` expose for
a `Date` built at midnight of that day. -/
def civilFromDays (z0 : ℤ) : ℤ × ℤ × ℤ :=
  let z := z0 + 719468
  let era := z.fdiv 146097
  let doe := z - era * 146097
  let yoe := (doe - doe.fdiv 1460 + doe.fdiv 36524 - doe.fdiv 146096).fdiv 365
  let y := yoe + era * 400
  let doy := doe - (365 * yoe + yoe.fdiv 4 - yoe.fdiv 100)
  let mp := (5 * doy + 2).fdiv 153
  let d := doy - (153 * mp + 2).fdiv 5 + 1
  let m := if mp < 10 then mp + 3 else mp - 9
  (if m ≤ 2 then y + 1 else y, m, d)

/-- Day of week of an epoch day, `0 = Sunday` (`Date.prototype.getDay`;
day 0, 1970-01-01, was a Thursday = 4). -/
def weekdayOf (z : ℤ) : ℕ := ((z + 4) % 7).toNat

/-- The fixed French weekday table, indexed by `getDay()` (0 = Sunday). -/
def frenchDays : List String :=
  ["dimanche", "lundi", "mardi", "mercredi", "jeudi", "vendredi", "samedi"]

/-- The fixed French month table, indexed by `getMonth()` (0 = January). -/
def frenchMonths : List String :=
  ["janvier", "février", "mars", "avril", "mai", "juin",
   "juillet", "août", "septembre", "octobre", "novembre", "décembre"]

/-- The weekday name used by every title formatter for a given day. -/
def weekDayName (z : ℤ) : String := frenchDays.getD (weekdayOf z) ""

/-- The day-of-month used by every title formatter for a given day. -/
def dayOfMonthOf (z : ℤ) : ℤ := (civilFromDays z).2.2

/-- The month name used by every title formatter for a given day. -/
def monthName (z : ℤ) : String :=
  frenchMonths.getD ((civilFromDays z).2.1 - 1).toNat ""

namespace DayTitleFormatter

/-- Interface `DayForTitle` of `src/utils/dayTitleFormatter.ts` (`date` as
the epoch day of the `YYYY-MM-DD` string). -/
structure DayForTitle where
  date : ℤ
  cover_photo : Option (Option String)
deriving Repr

/-- `calculateDayTitle` of `src/utils/dayTitleFormatter.ts`. -/
def calculateDayTitle (day : DayForTitle) (dayNumber : ℕ) : String :=
  let weekDay := weekDayName day.date
  let dayOfMonth := dayOfMonthOf day.date
  let month := monthName day.date
  let locationName := jsOrEmpty (day.cover_photo.getD none)
  "J" ++ toString dayNumber ++ ", " ++ weekDay ++ " " ++ toString dayOfMonth
    ++ " " ++ month
    ++ (if locationName != "" then ", " ++ locationName else "")

end DayTitleFormatter

namespace UpdateDayTitles

/-- The title computed for one day entry by the `update-day-titles` edge
function (its per-day loop body): day number, date components from the
French tables, and `day.location_name || ''` as suffix source. -/
def titleFor (dayNumber : ℕ) (date : ℤ) (location_name : Option String) :
    String :=
  let weekDay := weekDayName date
  let dayOfMonth := dayOfMonthOf date
  let month := monthName date
  let locationName := jsOrEmpty location_name
  "J" ++ toString dayNumber ++ ", " ++ weekDay ++ " " ++ toString dayOfMonth
    ++ " " ++ month
    ++ (if locationName != "" then ", " ++ locationName else "")

end UpdateDayTitles

namespace ProcessPhotoMetadata

/-- The day-title expression of `process-photo-metadata/index.ts`
(`locationName ? … : …` over the two template literals). -/
def titleFor (dayNumber : ℕ) (date : ℤ) (locationName : String) : String :=
  let weekDay := weekDayName date
  let dayOfMonth := dayOfMonthOf date
  let month := monthName date
  if locationName != "" then
    "J" ++ toString dayNumber ++ ", " ++ weekDay ++ " "
      ++ toString dayOfMonth ++ " " ++ month ++ ", " ++ locationName
  else
    "J" ++ toString dayNumber ++ ", " ++ weekDay ++ " "
      ++ toString dayOfMonth ++ " " ++ month

end ProcessPhotoMetadata

/-- The out-of-range placeholder photo for list indexing. -/
def defaultPhoto : Photo := ⟨"", none, none, none, none, none⟩

/-- Current photo at an index of the (possibly mutated) photo array. -/
def pget (ps : List Photo) (i : ℕ) : Photo := ps.getD i defaultPhoto

/-- Timestamp of the photo at an index (`new Date(p.date).getTime()`),
defaulted for indices without a date. -/
def tsD (ps : List Photo) (i : ℕ) : ℤ := ((pget ps i).date).getD 0

/-- Indices of the photos that have a date (`photos.filter(p => p.date)`),
in original order. -/
def datedIdx (ps : List Photo) : List ℕ :=
  (List.range ps.length).filter (fun i => ((pget ps i).date).isSome)

/-- `photosWithDate`: the dated indices, stably sorted ascending by
timestamp (`.sort((a, b) => ta - tb)`; JavaScript's sort is stable, as is
insertion sort). -/
def withDate (ps : List Photo) : List ℕ :=
  (datedIdx ps).insertionSort (fun i j => tsD ps i ≤ tsD ps j)

/-- Day key of the photo at an index. -/
def dayKeyI (ps : List Photo) (i : ℕ) : ℤ := dayKeyOf (tsD ps i)

/-- `sortedDays`: the distinct day keys, ascending. -/
def sortedDays (ps : List Photo) : List ℤ :=
  (((withDate ps).map (dayKeyI ps)).dedup).insertionSort (· ≤ ·)

/-- `photosByDay.get(d)`: indices of the day's photos, in timestamp order. -/
def grp (ps : List Photo) (d : ℤ) : List ℕ :=
  (withDate ps).filter (fun i => dayKeyI ps i == d)

/-- Latitude of the photo at an index (after a truthiness check the `getD 0`
default is never exercised). -/
def latD (ps : List Photo) (i : ℕ) : ℚ := (pget ps i).latitude.getD 0

/-- Longitude of the photo at an index. -/
def lonD (ps : List Photo) (i : ℕ) : ℚ := (pget ps i).longitude.getD 0

/-- Coordinate pair of the photo at an index. -/
def coordD (ps : List Photo) (i : ℕ) : Coord := (latD ps i, lonD ps i)

/-- Coordinate pair of a photo value. -/
def coordOf (p : Photo) : Coord := (p.latitude.getD 0, p.longitude.getD 0)

/-- `dayPhotos.find(p => p.latitude && p.longitude)`. -/
def firstWithCoords (ps : List Photo) (l : List ℕ) : Option ℕ :=
  l.find? (fun i => hasCoords (pget ps i))

/-- One comparison of the `closestPhoto` scan: keep the incumbent unless
the candidate's absolute timestamp difference is strictly smaller. -/
def closestStep (ps : List Photo) (t : ℤ) (best : ℕ × ℤ) (j : ℕ) : ℕ × ℤ :=
  if |t - tsD ps j| < best.2 then (j, |t - tsD ps j|) else best

/-- The `closestPhoto` scan of the backfill step: starting from the first
photo-with-coords, keep the first strict minimizer of the absolute timestamp
difference to `t`.  `ps` supplies the timestamps, `pwc` the candidate
indices (nonempty in the source). -/
def closestIn (ps : List Photo) (t : ℤ) (pwc : List ℕ) : ℕ :=
  match pwc with
  | [] => 0
  | c :: _ => (pwc.foldl (closestStep ps t) (c, |t - tsD ps c|)).1

namespace ProcessPhotoMetadata

/-- `DEFAULT_COORDS` of `process-photo-metadata/index.ts` (Nantes,
`{ latitude: 47.2184, longitude: -1.5536 }`). -/
def DEFAULT_COORDS : Coord := (Rat.divInt 472184 10000, Rat.divInt (-15536) 10000)

/-- A1 — the album coordinate: scan days from index 1 for the first photo
with (truthy) coordinates; default otherwise. -/
def albumCoords (ps : List Photo) : Coord :=
  if 2 ≤ (sortedDays ps).length then
    match ((sortedDays ps).drop 1).findSome?
        (fun d => firstWithCoords ps (grp ps d)) with
    | some i => coordD ps i
    | none => DEFAULT_COORDS
  else DEFAULT_COORDS

/-- One entry of the `dayCoords` map: coordinate plus cover photo. -/
structure DayCoord where
  latitude : ℚ
  longitude : ℚ
  coverPhotoId : String
deriving DecidableEq, Repr

/-- A2 — the day coordinate and cover: last photo-with-coords of the day,
else the album coordinate with the day's last photo as cover. -/
def dayCoords (ps : List Photo) (d : ℤ) : DayCoord :=
  let idxs := grp ps d
  let pwc := idxs.filter (fun i => hasCoords (pget ps i))
  match pwc.getLast? with
  | some i => ⟨latD ps i, lonD ps i, (pget ps i).id⟩
  | none =>
    let last := (idxs.getLast?).getD 0
    ⟨(albumCoords ps).1, (albumCoords ps).2, (pget ps last).id⟩

/-- The same-day photo indices read by the backfill step: the source filters
the *current* `photos` array (mutated in place), in original order. -/
def a3DayPhotos (st : List Photo) (dk : ℤ) : List ℕ :=
  (List.range st.length).filter (fun j =>
    ((pget st j).date).isSome && dayKeyOf (tsD st j) == dk)

/-- A3 — one step of the in-place backfill `photos.forEach(...)`: `ps0` is
the pristine input (whose `dayCoords`/`albumCoords` were fixed before A3),
`st` the current array, `i` the position being visited. -/
def a3Step (ps0 : List Photo) (st : List Photo) (i : ℕ) : List Photo :=
  let p := pget st i
  match p.date with
  | none => st
  | some t =>
    if truthyNum p.latitude && truthyNum p.longitude then st
    else
      let dk := dayKeyOf t
      let pwc := (a3DayPhotos st dk).filter (fun j => hasCoords (pget st j))
      match pwc with
      | [] =>
        let c := if (sortedDays ps0).contains dk then
            ((dayCoords ps0 dk).latitude, (dayCoords ps0 dk).longitude)
          else albumCoords ps0
        st.set i { p with latitude := some c.1, longitude := some c.2 }
      | _ :: _ =>
        let j := closestIn st t pwc
        st.set i { p with latitude := (pget st j).latitude,
                          longitude := (pget st j).longitude }

/-- A3 — the whole in-place backfill pass, visiting the array in original
order. -/
def photosA3 (ps : List Photo) : List Photo :=
  (List.range ps.length).foldl (a3Step ps) ps

/-- A quantized cache key: the two rendered `toFixed(4)` components. -/
abbrev Key := (Bool × ℕ) × (Bool × ℕ)

/-- The geocoding state: the module-level `locationCache` plus the trace of
network calls issued, each recorded as (quantized key, resolver result). -/
structure GS where
  cache : List (Key × String)
  log : List (Key × Option String)
deriving DecidableEq, Repr

/-- `locationCache.get`/`has` on the association-list model. -/
def lookupCache (c : List (Key × String)) (k : Key) : Option String :=
  (c.find? (fun e => e.1 == k)).map (·.2)

/-- `reverseGeocode`: return the cached name for the quantized key if
present; otherwise issue one network call (`g` is the deterministic
resolver collaborator, yielding the two-component place label or `none` on
failure/timeout) and cache the name only on success. -/
def reverseGeocode (g : ℚ → ℚ → Option String) (s : GS) (lat lon : ℚ) :
    Option String × GS :=
  let key : Key := (quant lat, quant lon)
  match lookupCache s.cache key with
  | some v => (some v, s)
  | none =>
    match g lat lon with
    | some name =>
      (some name, ⟨(key, name) :: s.cache, s.log ++ [(key, some name)]⟩)
    | none => (none, ⟨s.cache, s.log ++ [(key, none)]⟩)

/-- `Set.add` in insertion order (`coordsToResolve.add(coordKey)`). -/
def insertUniq (l : List Key) (k : Key) : List Key :=
  if k ∈ l then l else l ++ [k]

/-- B1 — the set of quantized day-coordinate keys, in first-appearance
order. -/
def coordsToResolve (ps : List Photo) : List Key :=
  ((sortedDays ps).map (fun d =>
    quantKey ((dayCoords ps d).latitude, (dayCoords ps d).longitude))).foldl
    insertUniq []

/-- B1 — resolve every unique day-coordinate key (the source re-parses the
key string, so the call is made at the quantized coordinates). -/
def b1 (g : ℚ → ℚ → Option String) (ps : List Photo) (s : GS) : GS :=
  (coordsToResolve ps).foldl
    (fun s k => (reverseGeocode g s (unquant k.1) (unquant k.2)).2) s

/-- B2 — propagate the day anchor name to every photo of the day with
(truthy) coordinates within the proximity threshold of the day coordinate
(no check of a pre-existing name). -/
def b2Apply (near : Coord → Coord → Bool) (idxs : List ℕ) (dayC : Coord)
    (nm : Option String) (st : List Photo) : List Photo :=
  idxs.foldl (fun st i =>
    let p := pget st i
    if hasCoords p && near (coordOf p) dayC && truthyStr nm then
      st.set i { p with locationName := nm }
    else st) st

/-- B3 — after resolving one photo's name, propagate it to the still
unnamed photos of the day within the threshold of *that* photo. -/
def b3Propagate (near : Coord → Coord → Bool) (idxs : List ℕ) (src : Coord)
    (nm : String) (st : List Photo) : List Photo :=
  idxs.foldl (fun st i =>
    let p := pget st i
    if hasCoords p && !truthyStr p.locationName && near (coordOf p) src then
      st.set i { p with locationName := some nm }
    else st) st

/-- B3 — the bounded iterative resolution loop (`while (iterations < 5 &&
hasPhotosWithoutLocation)`): find the first photo with coordinates but no
name, geocode it, and on success assign and propagate its name. -/
def b3Loop (g : ℚ → ℚ → Option String) (near : Coord → Coord → Bool)
    (idxs : List ℕ) : ℕ → List Photo × GS → List Photo × GS
  | 0, st => st
  | fuel + 1, (ph, gs) =>
    match idxs.find? (fun i =>
        hasCoords (pget ph i) && !truthyStr (pget ph i).locationName) with
    | none => (ph, gs)
    | some j =>
      let p := pget ph j
      let r := reverseGeocode g gs (p.latitude.getD 0) (p.longitude.getD 0)
      if truthyStr r.1 then
        let nm := r.1.getD ""
        let ph1 := ph.set j { p with locationName := some nm }
        let ph2 := b3Propagate near idxs (coordOf p) nm ph1
        b3Loop g near idxs fuel (ph2, r.2)
      else
        b3Loop g near idxs fuel (ph, r.2)

/-- The per-day enrichment state: the photo array, the geocoding state and
the `dayLocations` map. -/
structure BState where
  photos : List Photo
  geo : GS
  dayLocations : List (ℤ × String)
deriving Repr

/-- `dayLocations.get(day)`. -/
def lookupDayLoc (l : List (ℤ × String)) (d : ℤ) : Option String :=
  (l.find? (fun e => e.1 == d)).map (·.2)

/-- The per-day body of the `for (const day of sortedDays)` loop: B2 then
B3.  `ps0` is the pristine input fixing groups and day coordinates. -/
def dayStep (g : ℚ → ℚ → Option String) (near : Coord → Coord → Bool)
    (ps0 : List Photo) (st : BState) (d : ℤ) : BState :=
  let idxs := grp ps0 d
  let dc := dayCoords ps0 d
  let dayC : Coord := (dc.latitude, dc.longitude)
  let dayLocationName := lookupCache st.geo.cache (quantKey dayC)
  let dayLocations' := if truthyStr dayLocationName then
      st.dayLocations ++ [(d, dayLocationName.getD "")]
    else st.dayLocations
  let ph1 := b2Apply near idxs dayC dayLocationName st.photos
  let r := b3Loop g near idxs 5 (ph1, st.geo)
  ⟨r.1, r.2, dayLocations'⟩

/-- The generated `DayEntry` record of `process-photo-metadata/index.ts`. -/
structure DayEntry where
  date : ℤ
  coverPhotoId : String
  latitude : ℚ
  longitude : ℚ
  locationName : String
  title : String
deriving DecidableEq, Repr

/-- Stamping one day title onto one photo
(`photo.dayTitle = title`). -/
def stampTitle (title : String) (st : List Photo) (i : ℕ) : List Photo :=
  st.set i { pget st i with dayTitle := some title }

/-- One iteration of the title-generation loop: build the day's entry and
stamp the title onto the day's photos. -/
def applyTitlesStep (ps0 : List Photo) (dayLocs : List (ℤ × String))
    (acc : List Photo × List DayEntry) (e : ℕ × ℤ) :
    List Photo × List DayEntry :=
  let dayNumber := e.1 + 1
  let d := e.2
  let locationName := jsOrEmpty (lookupDayLoc dayLocs d)
  let title := titleFor dayNumber d locationName
  let dc := dayCoords ps0 d
  let entry : DayEntry :=
    ⟨d, dc.coverPhotoId, dc.latitude, dc.longitude, locationName, title⟩
  let ph := (grp ps0 d).foldl (stampTitle title) acc.1
  (ph, acc.2 ++ [entry])

/-- Title generation: build the day entries in day order and stamp each
day's title onto its photos' `dayTitle`. -/
def applyTitles (ps0 : List Photo) (dayLocs : List (ℤ × String))
    (st : List Photo) : List Photo × List DayEntry :=
  (sortedDays ps0).enum.foldl (applyTitlesStep ps0 dayLocs) (st, [])

/-- The result of one run of the edge function's enrichment body. -/
structure RunResult where
  photos : List Photo
  dayEntries : List DayEntry
  geo : GS
deriving Repr

/-- The whole pipeline of `process-photo-metadata/index.ts` as one run:
grouping, A1–A3, B1–B3 and title generation, threading the geocode cache
(initial content `c0`) and the call log. -/
def runPipeline (g : ℚ → ℚ → Option String) (near : Coord → Coord → Bool)
    (photos : List Photo) (c0 : List (Key × String)) : RunResult :=
  if (withDate photos).isEmpty then ⟨photos, [], ⟨c0, []⟩⟩
  else
    let ps1 := photosA3 photos
    let gs1 := b1 g photos ⟨c0, []⟩
    let st2 := (sortedDays photos).foldl (dayStep g near photos)
      ⟨ps1, gs1, []⟩
    let r := applyTitles photos st2.dayLocations st2.photos
    ⟨r.1, r.2, st2.geo⟩

end ProcessPhotoMetadata

namespace UpdateAlbumMetadata

/-- `DEFAULT_COORDS` of `update-album-metadata/index.ts` (Nantes,
`{ latitude: 47.218371, longitude: -1.553621 }` — a different precision
than the other copy). -/
def DEFAULT_COORDS : Coord :=
  (Rat.divInt 47218371 1000000, Rat.divInt (-1553621) 1000000)

/-- A1 — the album coordinate (same scan as the other copy, with this
file's default). -/
def albumCoords (ps : List Photo) : Coord :=
  if 2 ≤ (sortedDays ps).length then
    match ((sortedDays ps).drop 1).findSome?
        (fun d => firstWithCoords ps (grp ps d)) with
    | some i => coordD ps i
    | none => DEFAULT_COORDS
  else DEFAULT_COORDS

/-- A2 — the day coordinate: last photo-with-coords of the day, else the
album coordinate (no cover photo in this copy). -/
def dayCoords (ps : List Photo) (d : ℤ) : Coord :=
  let pwc := (grp ps d).filter (fun i => hasCoords (pget ps i))
  match pwc.getLast? with
  | some i => coordD ps i
  | none => albumCoords ps

/-- One element of the `photoUpdates` batch. -/
structure PhotoUpdate where
  id : String
  latitude : ℚ
  longitude : ℚ
  location_name : Option String
deriving DecidableEq, Repr

/-- A3 — the per-photo body of the `for (const photo of photosWithDate)`
loop: compute the new coordinates (this copy reads the *pristine* sorted
list, never its own updates) and push an update when coordinates were
missing or the photo has no location name. -/
def updateFor (ps : List Photo) (i : ℕ) : Option PhotoUpdate :=
  let p := pget ps i
  let needsUpdate := !(truthyNum p.latitude && truthyNum p.longitude)
  let new : ℚ × ℚ :=
    if truthyNum p.latitude && truthyNum p.longitude then
      (p.latitude.getD 0, p.longitude.getD 0)
    else
      let dk := dayKeyI ps i
      let dayPhotos := (withDate ps).filter (fun j => dayKeyI ps j == dk)
      let pwc := dayPhotos.filter (fun j => hasCoords (pget ps j))
      match pwc with
      | [] => if (sortedDays ps).contains dk then dayCoords ps dk
              else albumCoords ps
      | _ :: _ => coordD ps (closestIn ps (tsD ps i) pwc)
  if needsUpdate || !truthyStr p.locationName then
    some ⟨p.id, new.1, new.2, none⟩
  else none

/-- A3 — the whole `photoUpdates` batch, in sorted-photo order. -/
def photoUpdates (ps : List Photo) : List PhotoUpdate :=
  (withDate ps).foldl (fun acc i =>
    match updateFor ps i with
    | some u => acc ++ [u]
    | none => acc) []

/-- The `day_entries` update object this function sends: latitude and
longitude always, `location_name` only when truthy. -/
structure DayEntryRow where
  id : String
  album_id : String
  date : ℤ
  latitude : ℚ
  longitude : ℚ
  location_name : Option String
  title : String
  description : Option String
  cover_photo_id : Option String
deriving DecidableEq, Repr

/-- Applying one `update-album-metadata` day-entry update to a stored row
(`updateData = { latitude, longitude }` plus `location_name` when set). -/
def applyDayEntryUpdate (row : DayEntryRow) (lat lon : ℚ)
    (loc : Option String) : DayEntryRow :=
  { row with
    latitude := lat
    longitude := lon
    location_name := if truthyStr loc then loc else row.location_name }

end UpdateAlbumMetadata

namespace UpdateDayTitles

/-- The albums in first-appearance order (`daysByAlbum` map insertion
order). -/
def albumsOf (rows : List UpdateAlbumMetadata.DayEntryRow) : List String :=
  (rows.map (·.album_id)).foldl
    (fun acc a => if a ∈ acc then acc else acc ++ [a]) []

/-- The `{ id, title }` updates the `update-day-titles` function computes:
per album, sort days by date and recompute every title from the day index,
the date and the stored `location_name`. -/
def updatesFor (rows : List UpdateAlbumMetadata.DayEntryRow) :
    List (String × String) :=
  (albumsOf rows).flatMap (fun a =>
    let sorted := (rows.filter (·.album_id == a)).insertionSort
      (fun r s => r.date ≤ s.date)
    sorted.enum.map (fun e => (e.2.id, titleFor (e.1 + 1) e.2.date
      e.2.location_name)))

/-- Applying one `update-day-titles` row update
(`.update({ title: update.title })`). -/
def applyTitleUpdate (row : UpdateAlbumMetadata.DayEntryRow)
    (title : String) : UpdateAlbumMetadata.DayEntryRow :=
  { row with title := title }

/-- The stored rows after the whole title-recompute sweep. -/
def applyAll (rows : List UpdateAlbumMetadata.DayEntryRow) :
    List UpdateAlbumMetadata.DayEntryRow :=
  rows.map (fun r =>
    match (updatesFor rows).find? (fun u => u.1 == r.id) with
    | some u => applyTitleUpdate r u.2
    | none => r)

end UpdateDayTitles

/-- Modelled from the spec: the backfill rule of §4.2 step 3 as written —
"for each photo missing a coordinate, prefer the time-nearest photo in the
same day that has a native coordinate (minimize absolute timestamp
difference)".  Used to compare the source's backfill against the spec's
wording; returns the native minimizer's coordinates (chronologically first
on ties), or `none` when no same-day photo has a native coordinate. -/
def nearestNativeCoords (ps : List Photo) (i : ℕ) : Option Coord :=
  let cands := (withDate ps).filter (fun j =>
    dayKeyI ps j == dayKeyI ps i && hasCoords (pget ps j))
  match cands with
  | [] => none
  | _ :: _ => some (coordD ps (closestIn ps (tsD ps i) cands))

/-- The album-coordinate rule as the spec words it: scan the days in
chronological order starting from the second day and take the first photo
with a native coordinate; if none is found use the configured default. -/
def albumCoordsSpec (ps : List Photo) (dflt : Coord) : Coord :=
  match (((sortedDays ps).drop 1).flatMap (grp ps)).find?
      (fun i => hasCoords (pget ps i)) with
  | some i => coordD ps i
  | none => dflt

namespace ProcessPhotoMetadata

/-- The resolver results of the network calls made for one cell, in call
order. -/
def callsFor (gs : GS) (k : Key) : List (Option String) :=
  (gs.log.filter (fun e => e.1 == k)).map Prod.snd

/-- Call-log invariant: for every cell, every call but possibly the last
failed, and when the last call succeeded the cell is cached. -/
def GoodGS (gs : GS) : Prop :=
  ∀ k, (callsFor gs k).dropLast.all Option.isNone = true ∧
    ∀ v, (callsFor gs k).getLast? = some (some v) →
      (lookupCache gs.cache k).isSome = true

/-- The resolver's result depends only on the 4-decimal quantized cell of
its argument. -/
def CellResp (g : ℚ → ℚ → Option String) : Prop :=
  ∀ lat lon : ℚ, g lat lon = g (unquant (quant lat)) (unquant (quant lon))

/-- Every cache entry agrees with what the resolver returns at the cell's
quantized coordinates. -/
def Consistent (g : ℚ → ℚ → Option String)
    (c : List (Key × String)) : Prop :=
  ∀ k v, lookupCache c k = some v →
    g (unquant k.1) (unquant k.2) = some v

/-- The cache answers the lookup of a cell exactly as the resolver would at
the cell's quantized coordinates. -/
def Covered (g : ℚ → ℚ → Option String) (c : List (Key × String))
    (k : Key) : Prop :=
  lookupCache c k = g (unquant k.1) (unquant k.2)

/-- The cache-free B3 loop: the value of every resolution is the resolver's
answer at the photo's raw coordinates. -/
def pureB3Loop (g : ℚ → ℚ → Option String) (near : Coord → Coord → Bool)
    (idxs : List ℕ) : ℕ → List Photo → List Photo
  | 0, ph => ph
  | fuel + 1, ph =>
    match idxs.find? (fun i =>
        hasCoords (pget ph i) && !truthyStr (pget ph i).locationName) with
    | none => ph
    | some j =>
      let p := pget ph j
      let r := g (p.latitude.getD 0) (p.longitude.getD 0)
      if truthyStr r then
        let nm := r.getD ""
        let ph1 := ph.set j { p with locationName := some nm }
        let ph2 := b3Propagate near idxs (coordOf p) nm ph1
        pureB3Loop g near idxs fuel ph2
      else
        pureB3Loop g near idxs fuel ph

/-- The cache-free per-day step: the anchor read is the resolver's answer
at the quantized day coordinate. -/
def pureDayStep (g : ℚ → ℚ → Option String) (near : Coord → Coord → Bool)
    (ps0 : List Photo) (st : List Photo × List (ℤ × String)) (d : ℤ) :
    List Photo × List (ℤ × String) :=
  let idxs := grp ps0 d
  let dc := dayCoords ps0 d
  let dayC : Coord := (dc.latitude, dc.longitude)
  let k := quantKey dayC
  let dayLocationName := g (unquant k.1) (unquant k.2)
  let dayLocations' := if truthyStr dayLocationName then
      st.2 ++ [(d, dayLocationName.getD "")]
    else st.2
  let ph1 := b2Apply near idxs dayC dayLocationName st.1
  let ph2 := pureB3Loop g near idxs 5 ph1
  (ph2, dayLocations')

/-- The cache-free run: what any run with a cell-respecting resolver and a
consistent initial cache computes. -/
def pureRun (g : ℚ → ℚ → Option String) (near : Coord → Coord → Bool)
    (photos : List Photo) : List Photo × List DayEntry :=
  if (withDate photos).isEmpty then (photos, [])
  else
    let ps1 := photosA3 photos
    let st2 := (sortedDays photos).foldl (pureDayStep g near photos)
      (ps1, [])
    applyTitles photos st2.2 st2.1

end ProcessPhotoMetadata

/-- The input of the backfill counterexample: one day holding two photos
without coordinates (`m1` at t = 49, `m2` at t = 51) between two photos
with native coordinates (`n1` at t = 0 at (10, 10), `n2` at t = 100 at
(50, 50)). -/
def backfillPhotos : List Photo :=
  [⟨"m1", some 49, none, none, none, none⟩,
   ⟨"m2", some 51, none, none, none, none⟩,
   ⟨"n1", some 0, some 10, some 10, none, none⟩,
   ⟨"n2", some 100, some 50, some 50, none, none⟩]

/-- A resolver that always fails (every lookup times out). -/
def failingResolver : ℚ → ℚ → Option String := fun _ _ => none

/-- A proximity test instantiation used on concrete inputs where it is only
ever queried at pairs of equal coordinates: the source's
`calculateHaversineDistance(a, b) < threshold` is `true` there (the
haversine of a pair of equal coordinates is exactly 0). -/
def nearEq : Coord → Coord → Bool := fun a b => decide (a = b)

/-- One photo with coordinates (10, 10), for the cache counterexample. -/
def cachePhotos : List Photo :=
  [⟨"p", some 0, some 10, some 10, none, none⟩]

/-- A resolver that always answers "New", for the overwrite
counterexample. -/
def newResolver : ℚ → ℚ → Option String := fun _ _ => some "New"

/-- One photo that already carries a location name on entry. -/
def namedPhotos : List Photo :=
  [⟨"p", some 0, some 10, some 10, some "Old", none⟩]

/-- A raw coordinate slightly off its 4-decimal cell center:
`100001 / 100000 = 1.00001`, which quantizes to the cell of `1.0000`. -/
def rawLat : ℚ := Rat.divInt 100001 100000

/-- A deterministic resolver that fails at the quantized cell center
`lat = 1` but succeeds at any other latitude (so at the raw coordinate
`1.00001`). -/
def rawSensitiveResolver : ℚ → ℚ → Option String :=
  fun lat _ => if lat == 1 then none else some "X"

/-- One photo at the raw coordinate, for the idempotence counterexample. -/
def rawPhotos : List Photo := [⟨"p", some 0, some rawLat, some 2, none, none⟩]

/-- One photo a few metres on the negative side of the equator:
`-1/50000 = -0.00002` renders as the `toFixed(4)` key `"-0.0000"`, whose
`Number` parse-back `-0` re-renders as `"0.0000"`. -/
def negZeroPhotos : List Photo :=
  [⟨"p", some 0, some (Rat.divInt (-1) 50000), some 10, none, none⟩]

/-- A day-entry row whose title was manually overridden and whose
description was manually edited. -/
def manualRow : UpdateAlbumMetadata.DayEntryRow :=
  ⟨"r1", "a", 0, 1, 2, none, "Mon titre personnalisé",
   some "Notes du voyage", none⟩

/-- One timestamp-less photo (with its own fields set) next to a normal
timestamped photo. -/
def mixedPhotos : List Photo :=
  [⟨"u", none, some 3, some 4, some "Keep", some "T"⟩,
   ⟨"p", some 0, some 10, some 10, none, none⟩]

/-- A photo whose native latitude is exactly 0 (on the equator), next to a
same-day photo with a nonzero native coordinate. -/
def zeroPhotos : List Photo :=
  [⟨"z", some 0, some 0, some 5, none, none⟩,
   ⟨"q", some 1000, some 10, some 10, none, none⟩]

/-- Photo lists agreeing everywhere except possibly on `locationName` and
`dayTitle` (what the B phase and the title stamping may change). -/
def EqExceptNames (base st : List Photo) : Prop :=
  st.length = base.length ∧ ∀ i, (pget st i).id = (pget base i).id
    ∧ (pget st i).date = (pget base i).date
    ∧ (pget st i).latitude = (pget base i).latitude
    ∧ (pget st i).longitude = (pget base i).longitude

/-- Photo lists agreeing everywhere except possibly on `latitude` and
`longitude` (what the backfill may change). -/
def EqExceptCoords (base st : List Photo) : Prop :=
  st.length = base.length ∧ ∀ i, (pget st i).id = (pget base i).id
    ∧ (pget st i).date = (pget base i).date
    ∧ (pget st i).locationName = (pget base i).locationName
    ∧ (pget st i).dayTitle = (pget base i).dayTitle

/-- The coordinate the A3 backfill writes when the visited photo's day has
no candidate with (truthy) coordinates in the current array: the `let c` of
the source's empty-candidates branch (day coordinate when the day key is
known, album coordinate otherwise). -/
def a3Fallback (ps : List Photo) (dk : ℤ) : Coord :=
  if (sortedDays ps).contains dk then
    ((ProcessPhotoMetadata.dayCoords ps dk).latitude,
     (ProcessPhotoMetadata.dayCoords ps dk).longitude)
  else ProcessPhotoMetadata.albumCoords ps

/-- Invariant of the A3 in-place pass restricted to a day `dk` none of
whose photos has a native coordinate: lengths and dates agree with the
pristine input, and every dated photo of the day is either still pristine
or carries exactly the fallback coordinate. -/
def A3DayInv (ps : List Photo) (dk : ℤ) (st : List Photo) : Prop :=
  st.length = ps.length
  ∧ (∀ j, (pget st j).date = (pget ps j).date)
  ∧ ∀ j, ((pget ps j).date).isSome = true → dayKeyI ps j = dk →
      pget st j = pget ps j
      ∨ ((pget st j).latitude = some (a3Fallback ps dk).1
         ∧ (pget st j).longitude = some (a3Fallback ps dk).2)

/-! ### General helper lemmas -/

/-- The suffix-conditional template equals the two-branch template. -/
theorem titleFor_eq_suffix_form (n : ℕ) (d : ℤ) (L : String) :
    ProcessPhotoMetadata.titleFor n d L
      = ("J" ++ toString n ++ ", " ++ weekDayName d ++ " "
          ++ toString (dayOfMonthOf d) ++ " " ++ monthName d)
        ++ (if L != "" then ", " ++ L else "") := by
  by_cases hL : L = "" <;>
    simp [ProcessPhotoMetadata.titleFor, hL, String.append_assoc]

theorem closestStep_fold_spec (ps : List Photo) (t : ℤ) :
    ∀ (l : List ℕ) (b : ℕ × ℤ), b.2 = |t - tsD ps b.1| →
      (l.foldl (closestStep ps t) b).2
          = |t - tsD ps (l.foldl (closestStep ps t) b).1|
      ∧ ((l.foldl (closestStep ps t) b).1 = b.1
          ∨ (l.foldl (closestStep ps t) b).1 ∈ l)
      ∧ (l.foldl (closestStep ps t) b).2 ≤ b.2
      ∧ ∀ m ∈ l, (l.foldl (closestStep ps t) b).2 ≤ |t - tsD ps m| := by
  intro l
  induction l with
  | nil => intro b hb; simpa using hb
  | cons j l ih =>
    intro b hb
    simp only [List.foldl_cons]
    rcases le_or_lt b.2 |t - tsD ps j| with h | h
    · have hstep : closestStep ps t b j = b := by
        simp [closestStep, not_lt.mpr h]
      rw [hstep]
      obtain ⟨h1, h2, h3, h4⟩ := ih b hb
      refine ⟨h1, ?_, h3, ?_⟩
      · rcases h2 with h2 | h2
        · exact Or.inl h2
        · exact Or.inr (List.mem_cons_of_mem _ h2)
      · intro m hm
        rcases List.mem_cons.mp hm with rfl | hm
        · exact le_trans h3 h
        · exact h4 m hm
    · have hstep : closestStep ps t b j = (j, |t - tsD ps j|) := by
        simp [closestStep, h]
      rw [hstep]
      obtain ⟨h1, h2, h3, h4⟩ := ih (j, |t - tsD ps j|) rfl
      refine ⟨h1, ?_, le_trans h3 (le_of_lt h), ?_⟩
      · rcases h2 with h2 | h2
        · exact Or.inr (by simp [h2])
        · exact Or.inr (List.mem_cons_of_mem _ h2)
      · intro m hm
        rcases List.mem_cons.mp hm with rfl | hm
        · exact le_trans h3 le_rfl
        · exact h4 m hm

theorem closestIn_spec (ps : List Photo) (t : ℤ) (l : List ℕ)
    (hne : l ≠ []) :
    closestIn ps t l ∈ l
    ∧ ∀ m ∈ l, |t - tsD ps (closestIn ps t l)| ≤ |t - tsD ps m| := by
  match l, hne with
  | c :: rest, _ =>
    have h := closestStep_fold_spec ps t (c :: rest) (c, |t - tsD ps c|) rfl
    obtain ⟨h1, h2, _, h4⟩ := h
    have hc : closestIn ps t (c :: rest)
        = (List.foldl (closestStep ps t) (c, |t - tsD ps c|) (c :: rest)).1 :=
      rfl
    constructor
    · rw [hc]
      rcases h2 with h2 | h2
      · rw [h2]; exact List.mem_cons_self _ _
      · exact h2
    · intro m hm
      have hm2 := h4 m hm
      rw [h1] at hm2
      rw [hc]
      exact hm2

/-- C4: the generated day title is a pure function of the 1-based day
index, the date and the optional location name: every implementation
(`calculateDayTitle`, the `process-photo-metadata` template, the
`update-day-titles` loop) produces
`"J{dayIndex}, {weekday} {dayOfMonth} {month}"` with the weekday and month
drawn from the fixed French tables, suffixed with `", {locationName}"`
exactly when a (nonempty) location name is present. -/
theorem c4_day_title_format (n : ℕ) (d : ℤ) (loc : Option String) :
    (DayTitleFormatter.calculateDayTitle ⟨d, some loc⟩ n
        = ProcessPhotoMetadata.titleFor n d (jsOrEmpty loc)
      ∧ UpdateDayTitles.titleFor n d loc
        = ProcessPhotoMetadata.titleFor n d (jsOrEmpty loc))
    ∧ (truthyStr loc = true →
        ProcessPhotoMetadata.titleFor n d (jsOrEmpty loc)
          = "J" ++ toString n ++ ", " ++ weekDayName d ++ " "
            ++ toString (dayOfMonthOf d) ++ " " ++ monthName d
            ++ ", " ++ loc.getD "")
    ∧ (truthyStr loc = false →
        ProcessPhotoMetadata.titleFor n d (jsOrEmpty loc)
          = "J" ++ toString n ++ ", " ++ weekDayName d ++ " "
            ++ toString (dayOfMonthOf d) ++ " " ++ monthName d) := by
  refine ⟨⟨?_, ?_⟩, ?_, ?_⟩
  · rw [titleFor_eq_suffix_form]
    simp [DayTitleFormatter.calculateDayTitle]
  · rw [titleFor_eq_suffix_form]
    simp [UpdateDayTitles.titleFor]
  · intro htr
    match loc, htr with
    | some s, htr =>
      have hs : s ≠ "" := by simpa [truthyStr] using htr
      simp [ProcessPhotoMetadata.titleFor, jsOrEmpty, hs]
  · intro htr
    match loc with
    | none => simp [ProcessPhotoMetadata.titleFor, jsOrEmpty]
    | some s =>
      have hs : s = "" := by simpa [truthyStr] using htr
      simp [ProcessPhotoMetadata.titleFor, jsOrEmpty, hs]

/-- C4 witness: day 1, Monday 2025-07-14, with and without the resolved
name of the spec's example. -/
theorem c4_day_title_format_witness :
    truthyStr (some "Kérel, Bangor") = true
    ∧ ProcessPhotoMetadata.titleFor 1 20283 (jsOrEmpty (some "Kérel, Bangor"))
        = "J" ++ toString 1 ++ ", " ++ weekDayName 20283 ++ " "
          ++ toString (dayOfMonthOf 20283) ++ " " ++ monthName 20283
          ++ ", " ++ (some "Kérel, Bangor").getD ""
    ∧ truthyStr (none : Option String) = false
    ∧ ProcessPhotoMetadata.titleFor 1 20283 (jsOrEmpty none)
        = "J" ++ toString 1 ++ ", " ++ weekDayName 20283 ++ " "
          ++ toString (dayOfMonthOf 20283) ++ " " ++ monthName 20283 :=
  ⟨by decide,
   (c4_day_title_format 1 20283 (some "Kérel, Bangor")).2.1 (by decide),
   by decide,
   (c4_day_title_format 1 20283 none).2.2 (by decide)⟩

/-- C9 counterexample: a day entry whose `title` was manually overridden is
unconditionally overwritten by the title-recompute sweep (the spec's
"never touch a manually-overridden title" fails on this code path). -/
theorem c9_counterexample :
    UpdateDayTitles.applyAll [manualRow]
      = [{ manualRow with title := "J1, jeudi 1 janvier" }]
    ∧ manualRow.title = "Mon titre personnalisé"
    ∧ ("J1, jeudi 1 janvier" : String) ≠ "Mon titre personnalisé" :=
  ⟨by decide, rfl, by decide⟩

/-- C9 (amended): both update paths touch only pipeline-owned fields — the
title recompute writes exactly `title` (the description and every other
field survive), and the metadata re-run writes exactly the coordinates and
the location name (the title and description survive); but the recomputed
`title` unconditionally replaces the stored one. -/
theorem c9_day_entry_updates (row : UpdateAlbumMetadata.DayEntryRow)
    (t : String) (lat lon : ℚ) (loc : Option String) :
    ((UpdateDayTitles.applyTitleUpdate row t).title = t
      ∧ (UpdateDayTitles.applyTitleUpdate row t).description = row.description
      ∧ (UpdateDayTitles.applyTitleUpdate row t).date = row.date
      ∧ (UpdateDayTitles.applyTitleUpdate row t).latitude = row.latitude
      ∧ (UpdateDayTitles.applyTitleUpdate row t).longitude = row.longitude
      ∧ (UpdateDayTitles.applyTitleUpdate row t).location_name
          = row.location_name
      ∧ (UpdateDayTitles.applyTitleUpdate row t).cover_photo_id
          = row.cover_photo_id)
    ∧ ((UpdateAlbumMetadata.applyDayEntryUpdate row lat lon loc).title
          = row.title
      ∧ (UpdateAlbumMetadata.applyDayEntryUpdate row lat lon loc).description
          = row.description
      ∧ (UpdateAlbumMetadata.applyDayEntryUpdate row lat lon loc).date
          = row.date
      ∧ (UpdateAlbumMetadata.applyDayEntryUpdate row lat lon loc).cover_photo_id
          = row.cover_photo_id) :=
  ⟨⟨rfl, rfl, rfl, rfl, rfl, rfl, rfl⟩, rfl, rfl, rfl, rfl⟩

/-- C3 counterexample: in `process-photo-metadata`'s in-place backfill, the
photo `m2` receives (10, 10) — the coordinate of the *previously
backfilled* photo `m1`, which is time-nearest after mutation — while the
spec's rule (time-nearest photo with a *native* coordinate) yields `n2`'s
(50, 50). -/
theorem c3_counterexample :
    (pget (ProcessPhotoMetadata.photosA3 backfillPhotos) 1).latitude = some 10
    ∧ (pget (ProcessPhotoMetadata.photosA3 backfillPhotos) 1).longitude
        = some 10
    ∧ nearestNativeCoords backfillPhotos 1 = some (50, 50)
    ∧ some ((10 : ℚ), (10 : ℚ)) ≠ some ((50 : ℚ), (50 : ℚ)) :=
  ⟨by decide, by decide, by decide, by decide⟩

/-- `find?` over a flattened list is the first per-chunk `find?` that
succeeds. -/
theorem find_flatMap_eq_findSome (ds : List ℤ) (f : ℤ → List ℕ)
    (p : ℕ → Bool) :
    (ds.flatMap f).find? p = ds.findSome? (fun d => (f d).find? p) := by
  induction ds with
  | nil => rfl
  | cons d ds ih =>
    rw [List.flatMap_cons, List.find?_append, List.findSome?_cons, ih]
    cases (f d).find? p <;> simp [Option.or]

/-- Both album-coordinate implementations compute the spec's scan. -/
theorem albumCoords_eq_spec (ps : List Photo) :
    ProcessPhotoMetadata.albumCoords ps
        = albumCoordsSpec ps ProcessPhotoMetadata.DEFAULT_COORDS
    ∧ UpdateAlbumMetadata.albumCoords ps
        = albumCoordsSpec ps UpdateAlbumMetadata.DEFAULT_COORDS := by
  have key : ∀ dflt : Coord,
      (if 2 ≤ (sortedDays ps).length then
        match ((sortedDays ps).drop 1).findSome?
            (fun d => firstWithCoords ps (grp ps d)) with
        | some i => coordD ps i
        | none => dflt
      else dflt) = albumCoordsSpec ps dflt := by
    intro dflt
    unfold albumCoordsSpec
    rw [find_flatMap_eq_findSome]
    by_cases h : 2 ≤ (sortedDays ps).length
    · simp only [h, if_true]
      rfl
    · have hd : (sortedDays ps).drop 1 = [] := by
        rw [List.drop_eq_nil_iff]; omega
      simp [h, hd]
  exact ⟨key _, key _⟩

/-- C1: the album coordinate is the first native coordinate found scanning
the days chronologically from the second day on (both implementations), so
an album whose only native coordinates sit on its first day — or a
single-day album — gets the configured default. -/
theorem c1_album_coordinate (ps : List Photo) :
    (ProcessPhotoMetadata.albumCoords ps
        = albumCoordsSpec ps ProcessPhotoMetadata.DEFAULT_COORDS
      ∧ UpdateAlbumMetadata.albumCoords ps
        = albumCoordsSpec ps UpdateAlbumMetadata.DEFAULT_COORDS)
    ∧ ((((sortedDays ps).drop 1).flatMap (grp ps)).all
          (fun i => !hasCoords (pget ps i)) = true →
        ProcessPhotoMetadata.albumCoords ps
            = ProcessPhotoMetadata.DEFAULT_COORDS
          ∧ UpdateAlbumMetadata.albumCoords ps
            = UpdateAlbumMetadata.DEFAULT_COORDS) := by
  refine ⟨albumCoords_eq_spec ps, fun hall => ?_⟩
  have hnone : (((sortedDays ps).drop 1).flatMap (grp ps)).find?
      (fun i => hasCoords (pget ps i)) = none := by
    rw [List.find?_eq_none]
    intro x hx
    have := List.all_eq_true.mp hall x hx
    simp at this
    simp [this]
  have hspec : ∀ dflt : Coord, albumCoordsSpec ps dflt = dflt := by
    intro dflt
    unfold albumCoordsSpec
    rw [hnone]
  rw [(albumCoords_eq_spec ps).1, (albumCoords_eq_spec ps).2]
  exact ⟨hspec _, hspec _⟩

/-- C1 witness: a single-day album whose only photo has native coordinates
still gets the default album coordinate. -/
theorem c1_album_coordinate_witness :
    (((sortedDays cachePhotos).drop 1).flatMap (grp cachePhotos)).all
        (fun i => !hasCoords (pget cachePhotos i)) = true
    ∧ ProcessPhotoMetadata.albumCoords cachePhotos
        = ProcessPhotoMetadata.DEFAULT_COORDS :=
  ⟨by decide, ((c1_album_coordinate cachePhotos).2 (by decide)).1⟩

/-- `photosWithDate` is sorted ascending by timestamp. -/
theorem withDate_sorted (ps : List Photo) :
    List.Sorted (fun i j => tsD ps i ≤ tsD ps j) (withDate ps) := by
  haveI : IsTotal ℕ (fun i j => tsD ps i ≤ tsD ps j) :=
    ⟨fun a b => le_total (tsD ps a) (tsD ps b)⟩
  haveI : IsTrans ℕ (fun i j => tsD ps i ≤ tsD ps j) :=
    ⟨fun a b c h1 h2 => le_trans h1 h2⟩
  exact List.sorted_insertionSort _ _

/-- Each day group is sorted ascending by timestamp. -/
theorem grp_sorted (ps : List Photo) (d : ℤ) :
    List.Sorted (fun i j => tsD ps i ≤ tsD ps j) (grp ps d) :=
  List.Pairwise.sublist (List.filter_sublist _) (withDate_sorted ps)

/-- In a timestamp-sorted index list the last element carries the largest
timestamp. -/
theorem tsD_le_getLast (ps : List Photo) (l : List ℕ)
    (h : List.Sorted (fun i j => tsD ps i ≤ tsD ps j) l) (a : ℕ)
    (ha : l.getLast? = some a) (b : ℕ) (hb : b ∈ l) : tsD ps b ≤ tsD ps a := by
  obtain ⟨ys, rfl⟩ := List.getLast?_eq_some_iff.mp ha
  rcases List.mem_append.mp hb with hb | hb
  · exact (List.pairwise_append.mp h).2.2 b hb a (by simp)
  · simp at hb
    subst hb
    exact le_rfl

/-- Every day key of `sortedDays` owns a nonempty group. -/
theorem grp_ne_nil (ps : List Photo) (d : ℤ) (hd : d ∈ sortedDays ps) :
    grp ps d ≠ [] := by
  unfold sortedDays at hd
  rw [List.mem_insertionSort, List.mem_dedup, List.mem_map] at hd
  obtain ⟨i, hi, rfl⟩ := hd
  refine List.ne_nil_of_mem (a := i) ?_
  rw [grp, List.mem_filter]
  exact ⟨hi, by simp⟩

/-- C2: for every day, the day coordinate and the cover photo come from the
last (largest-timestamp) photo of the day that has a native coordinate; when
no photo of the day has one, the day coordinate falls back to the album
coordinate and the cover is the day's last photo. -/
theorem c2_day_coordinate_and_cover (ps : List Photo) (d : ℤ)
    (hd : d ∈ sortedDays ps) :
    ((grp ps d).filter (fun i => hasCoords (pget ps i)) = [] →
      ∃ i, (grp ps d).getLast? = some i
        ∧ ProcessPhotoMetadata.dayCoords ps d
            = ⟨(ProcessPhotoMetadata.albumCoords ps).1,
               (ProcessPhotoMetadata.albumCoords ps).2, (pget ps i).id⟩)
    ∧ ∀ i, ((grp ps d).filter (fun i => hasCoords (pget ps i))).getLast?
          = some i →
        ProcessPhotoMetadata.dayCoords ps d
            = ⟨latD ps i, lonD ps i, (pget ps i).id⟩
        ∧ hasCoords (pget ps i) = true
        ∧ ∀ j ∈ (grp ps d).filter (fun i => hasCoords (pget ps i)),
            tsD ps j ≤ tsD ps i := by
  constructor
  · intro hfil
    obtain ⟨a, ha⟩ := Option.isSome_iff_exists.mp
      (List.getLast?_isSome.mpr (grp_ne_nil ps d hd))
    refine ⟨a, ha, ?_⟩
    simp only [ProcessPhotoMetadata.dayCoords]
    rw [hfil, ha]
    rfl
  · intro i hi
    have hmem : i ∈ (grp ps d).filter (fun i => hasCoords (pget ps i)) := by
      obtain ⟨ys, hys⟩ := List.getLast?_eq_some_iff.mp hi
      rw [hys]
      simp
    refine ⟨?_, (List.mem_filter.mp hmem).2, ?_⟩
    · simp only [ProcessPhotoMetadata.dayCoords]
      rw [hi]
    · intro j hj
      exact tsD_le_getLast ps _ (List.Pairwise.sublist (List.filter_sublist _)
        (grp_sorted ps d)) i hi j hj

/-- C2 witness: on the counterexample album's single day, the day
coordinate and cover come from `n2`, the latest photo with native
coordinates. -/
theorem c2_day_coordinate_and_cover_witness :
    ((grp backfillPhotos 0).filter
        (fun i => hasCoords (pget backfillPhotos i))).getLast? = some 3
    ∧ ProcessPhotoMetadata.dayCoords backfillPhotos 0
        = ⟨latD backfillPhotos 3, lonD backfillPhotos 3,
           (pget backfillPhotos 3).id⟩ :=
  ⟨by decide,
   ((c2_day_coordinate_and_cover backfillPhotos 0 (by decide)).2 3
     (by decide)).1⟩

/-! ### Frame lemmas: which positions each stage can touch -/

/-- Reading through a `set`, in every bounds situation. -/
theorem pget_set_eq_ite (st : List Photo) (j i : ℕ) (a : Photo) :
    pget (st.set j a) i = if j = i ∧ j < st.length then a else pget st i := by
  rcases eq_or_ne j i with rfl | hne
  · by_cases hj : j < st.length
    · simp [pget, List.getD_eq_getElem?_getD, List.getElem?_set_self hj, hj]
    · have h1 : (st.set j a)[j]? = none := by
        rw [List.getElem?_set]
        simp [hj]
      have h2 : st[j]? = none := by
        rw [List.getElem?_eq_none]
        omega
      simp [pget, List.getD_eq_getElem?_getD, h1, h2, hj]
  · simp [pget, List.getD_eq_getElem?_getD, List.getElem?_set_ne hne, hne]

/-- Reading an untouched position through a `set`. -/
theorem pget_set_ne (st : List Photo) (j i : ℕ) (a : Photo) (h : j ≠ i) :
    pget (st.set j a) i = pget st i := by
  rw [pget_set_eq_ite]
  simp [h]

theorem eqExceptNames_refl (base : List Photo) : EqExceptNames base base :=
  ⟨rfl, fun _ => ⟨rfl, rfl, rfl, rfl⟩⟩

theorem eqExceptCoords_refl (base : List Photo) : EqExceptCoords base base :=
  ⟨rfl, fun _ => ⟨rfl, rfl, rfl, rfl⟩⟩

theorem eqExceptNames_set (base st : List Photo) (h : EqExceptNames base st)
    (j : ℕ) (a : Photo) (hid : a.id = (pget st j).id)
    (hdate : a.date = (pget st j).date)
    (hlat : a.latitude = (pget st j).latitude)
    (hlon : a.longitude = (pget st j).longitude) :
    EqExceptNames base (st.set j a) := by
  obtain ⟨hl, hf⟩ := h
  refine ⟨by rw [List.length_set]; exact hl, fun i => ?_⟩
  rw [pget_set_eq_ite]
  split
  · rename_i hc
    obtain ⟨rfl, -⟩ := hc
    rw [hid, hdate, hlat, hlon]
    exact hf j
  · exact hf i

theorem eqExceptCoords_set (base st : List Photo) (h : EqExceptCoords base st)
    (j : ℕ) (a : Photo) (hid : a.id = (pget st j).id)
    (hdate : a.date = (pget st j).date)
    (hname : a.locationName = (pget st j).locationName)
    (htitle : a.dayTitle = (pget st j).dayTitle) :
    EqExceptCoords base (st.set j a) := by
  obtain ⟨hl, hf⟩ := h
  refine ⟨by rw [List.length_set]; exact hl, fun i => ?_⟩
  rw [pget_set_eq_ite]
  split
  · rename_i hc
    obtain ⟨rfl, -⟩ := hc
    rw [hid, hdate, hname, htitle]
    exact hf j
  · exact hf i

/-- One backfill step either leaves the array alone or overwrites exactly
the visited position, keeping that photo's `id`, `date`, `locationName`
and `dayTitle`. -/
theorem a3Step_cases (ps0 st : List Photo) (m : ℕ) :
    ProcessPhotoMetadata.a3Step ps0 st m = st
    ∨ ∃ a, ProcessPhotoMetadata.a3Step ps0 st m = st.set m a
        ∧ a.id = (pget st m).id ∧ a.date = (pget st m).date
        ∧ a.locationName = (pget st m).locationName
        ∧ a.dayTitle = (pget st m).dayTitle := by
  simp only [ProcessPhotoMetadata.a3Step]
  cases hdate : (pget st m).date with
  | none => exact Or.inl rfl
  | some t =>
    dsimp only
    split
    · exact Or.inl rfl
    · cases hpwc : (ProcessPhotoMetadata.a3DayPhotos st
          (dayKeyOf t)).filter (fun j => hasCoords (pget st j)) with
      | nil => exact Or.inr ⟨_, rfl, rfl, rfl, rfl, rfl⟩
      | cons c rest => exact Or.inr ⟨_, rfl, rfl, rfl, rfl, rfl⟩

/-- A backfill step leaves a dateless or coordinate-bearing position
alone. -/
theorem a3Step_id_of (ps0 st : List Photo) (i : ℕ)
    (h : (pget st i).date = none
      ∨ (truthyNum (pget st i).latitude
          && truthyNum (pget st i).longitude) = true) :
    ProcessPhotoMetadata.a3Step ps0 st i = st := by
  simp only [ProcessPhotoMetadata.a3Step]
  cases hdate : (pget st i).date with
  | none => rfl
  | some t =>
    dsimp only
    rcases h with h | h
    · rw [h] at hdate
      cases hdate
    · rw [if_pos h]

/-- The backfill pass changes only coordinates. -/
theorem photosA3_ec (ps : List Photo) :
    EqExceptCoords ps (ProcessPhotoMetadata.photosA3 ps) := by
  unfold ProcessPhotoMetadata.photosA3
  refine List.foldlRecOn _ _ _ (eqExceptCoords_refl ps) ?_
  intro st h m _
  rcases a3Step_cases ps st m with hc | ⟨a, hc, hid, hdate, hname, htitle⟩
  · rw [hc]; exact h
  · rw [hc]
    exact eqExceptCoords_set ps st h m a hid hdate hname htitle

/-- Positions the backfill pass must leave alone keep their photo. -/
theorem photosA3_pget_keep (ps : List Photo) (i : ℕ)
    (hkeep : (pget ps i).date = none
      ∨ (truthyNum (pget ps i).latitude
          && truthyNum (pget ps i).longitude) = true) :
    pget (ProcessPhotoMetadata.photosA3 ps) i = pget ps i := by
  unfold ProcessPhotoMetadata.photosA3
  refine List.foldlRecOn (motive := fun st => pget st i = pget ps i)
    _ _ _ rfl ?_
  intro st h m _
  rcases eq_or_ne m i with rfl | hne
  · rw [a3Step_id_of ps st m (by rw [h]; exact hkeep)]
    exact h
  · rcases a3Step_cases ps st m with hc | ⟨a, hc, -⟩
    · rw [hc]; exact h
    · rw [hc, pget_set_ne st m i a hne]
      exact h

/-- The backfill pass preserves the list length. -/
theorem photosA3_length (ps : List Photo) :
    (ProcessPhotoMetadata.photosA3 ps).length = ps.length :=
  (photosA3_ec ps).1

/-- B2 changes only location names. -/
theorem b2Apply_eqn (near : Coord → Coord → Bool) (idxs : List ℕ)
    (dayC : Coord) (nm : Option String) (base st : List Photo)
    (h : EqExceptNames base st) :
    EqExceptNames base (ProcessPhotoMetadata.b2Apply near idxs dayC nm st) := by
  unfold ProcessPhotoMetadata.b2Apply
  refine List.foldlRecOn _ _ _ h ?_
  intro st' h' m _
  dsimp only
  split
  · exact eqExceptNames_set base st' h' m _ rfl rfl rfl rfl
  · exact h'

/-- B2 leaves positions outside the day's group alone. -/
theorem b2Apply_pget_not_mem (near : Coord → Coord → Bool) (idxs : List ℕ)
    (dayC : Coord) (nm : Option String) (st : List Photo) (i : ℕ)
    (hi : i ∉ idxs) :
    pget (ProcessPhotoMetadata.b2Apply near idxs dayC nm st) i = pget st i := by
  unfold ProcessPhotoMetadata.b2Apply
  refine List.foldlRecOn (motive := fun st' => pget st' i = pget st i)
    _ _ _ rfl ?_
  intro st' h' m hm
  dsimp only
  split
  · rw [pget_set_ne st' m i _ (fun hmi => hi (hmi ▸ hm))]
    exact h'
  · exact h'

/-- B3 propagation changes only location names. -/
theorem b3Propagate_eqn (near : Coord → Coord → Bool) (idxs : List ℕ)
    (src : Coord) (nm : String) (base st : List Photo)
    (h : EqExceptNames base st) :
    EqExceptNames base
      (ProcessPhotoMetadata.b3Propagate near idxs src nm st) := by
  unfold ProcessPhotoMetadata.b3Propagate
  refine List.foldlRecOn _ _ _ h ?_
  intro st' h' m _
  dsimp only
  split
  · exact eqExceptNames_set base st' h' m _ rfl rfl rfl rfl
  · exact h'

/-- B3 propagation leaves positions outside the day's group alone. -/
theorem b3Propagate_pget_not_mem (near : Coord → Coord → Bool)
    (idxs : List ℕ) (src : Coord) (nm : String) (st : List Photo) (i : ℕ)
    (hi : i ∉ idxs) :
    pget (ProcessPhotoMetadata.b3Propagate near idxs src nm st) i
      = pget st i := by
  unfold ProcessPhotoMetadata.b3Propagate
  refine List.foldlRecOn (motive := fun st' => pget st' i = pget st i)
    _ _ _ rfl ?_
  intro st' h' m hm
  dsimp only
  split
  · rw [pget_set_ne st' m i _ (fun hmi => hi (hmi ▸ hm))]
    exact h'
  · exact h'

/-- The B3 loop changes only location names. -/
theorem b3Loop_eqn (g : ℚ → ℚ → Option String) (near : Coord → Coord → Bool)
    (idxs : List ℕ) (fuel : ℕ) :
    ∀ (ph : List Photo) (gs : ProcessPhotoMetadata.GS) (base : List Photo),
      EqExceptNames base ph →
      EqExceptNames base
        (ProcessPhotoMetadata.b3Loop g near idxs fuel (ph, gs)).1 := by
  induction fuel with
  | zero => intro ph gs base h; exact h
  | succ fuel ih =>
    intro ph gs base h
    rw [ProcessPhotoMetadata.b3Loop]
    cases hf : idxs.find? (fun i =>
        hasCoords (pget ph i) && !truthyStr (pget ph i).locationName) with
    | none => exact h
    | some j =>
      dsimp only
      split
      · exact ih _ _ base (b3Propagate_eqn _ _ _ _ base _
          (eqExceptNames_set base ph h j _ rfl rfl rfl rfl))
      · exact ih _ _ base h

/-- The B3 loop leaves positions outside the day's group alone. -/
theorem b3Loop_pget_not_mem (g : ℚ → ℚ → Option String)
    (near : Coord → Coord → Bool) (idxs : List ℕ) (fuel : ℕ) :
    ∀ (ph : List Photo) (gs : ProcessPhotoMetadata.GS) (i : ℕ), i ∉ idxs →
      pget (ProcessPhotoMetadata.b3Loop g near idxs fuel (ph, gs)).1 i
        = pget ph i := by
  induction fuel with
  | zero => intro ph gs i hi; rfl
  | succ fuel ih =>
    intro ph gs i hi
    rw [ProcessPhotoMetadata.b3Loop]
    cases hf : idxs.find? (fun m =>
        hasCoords (pget ph m) && !truthyStr (pget ph m).locationName) with
    | none => rfl
    | some j =>
      have hj : j ∈ idxs := List.mem_of_find?_eq_some hf
      have hji : j ≠ i := fun hji => hi (hji ▸ hj)
      dsimp only
      split
      · rw [ih _ _ i hi, b3Propagate_pget_not_mem _ _ _ _ _ i hi,
          pget_set_ne ph j i _ hji]
      · exact ih _ _ i hi

/-- A whole per-day step changes only location names. -/
theorem dayStep_eqn (g : ℚ → ℚ → Option String)
    (near : Coord → Coord → Bool) (ps0 : List Photo)
    (st : ProcessPhotoMetadata.BState) (d : ℤ) (base : List Photo)
    (h : EqExceptNames base st.photos) :
    EqExceptNames base
      (ProcessPhotoMetadata.dayStep g near ps0 st d).photos := by
  unfold ProcessPhotoMetadata.dayStep
  exact b3Loop_eqn g near _ 5 _ _ base (b2Apply_eqn near _ _ _ base _ h)

/-- A per-day step leaves positions outside the day's group alone. -/
theorem dayStep_pget_not_mem (g : ℚ → ℚ → Option String)
    (near : Coord → Coord → Bool) (ps0 : List Photo)
    (st : ProcessPhotoMetadata.BState) (d : ℤ) (i : ℕ)
    (hi : i ∉ grp ps0 d) :
    pget (ProcessPhotoMetadata.dayStep g near ps0 st d).photos i
      = pget st.photos i := by
  unfold ProcessPhotoMetadata.dayStep
  rw [b3Loop_pget_not_mem g near _ 5 _ _ i hi,
    b2Apply_pget_not_mem near _ _ _ _ i hi]

/-- The whole per-day fold changes only location names. -/
theorem daysFold_eqn (g : ℚ → ℚ → Option String)
    (near : Coord → Coord → Bool) (ps0 : List Photo) (ds : List ℤ)
    (st : ProcessPhotoMetadata.BState) (base : List Photo)
    (h : EqExceptNames base st.photos) :
    EqExceptNames base
      ((ds.foldl (ProcessPhotoMetadata.dayStep g near ps0) st).photos) := by
  refine List.foldlRecOn
    (motive := fun bs : ProcessPhotoMetadata.BState =>
      EqExceptNames base bs.photos) _ _ _ h ?_
  intro bs hbs d _
  exact dayStep_eqn g near ps0 bs d base hbs

/-- The per-day fold leaves positions outside all groups alone. -/
theorem daysFold_pget_not_mem (g : ℚ → ℚ → Option String)
    (near : Coord → Coord → Bool) (ps0 : List Photo) (ds : List ℤ)
    (st : ProcessPhotoMetadata.BState) (i : ℕ)
    (hi : ∀ d ∈ ds, i ∉ grp ps0 d) :
    pget ((ds.foldl (ProcessPhotoMetadata.dayStep g near ps0) st).photos) i
      = pget st.photos i := by
  refine List.foldlRecOn
    (motive := fun bs : ProcessPhotoMetadata.BState =>
      pget bs.photos i = pget st.photos i) _ _ _ rfl ?_
  intro bs hbs d hd
  rw [dayStep_pget_not_mem g near ps0 bs d i (hi d hd)]
  exact hbs

/-- Stamping a title changes only `dayTitle`. -/
theorem stampTitle_eqn (title : String) (base ph : List Photo) (m : ℕ)
    (h : EqExceptNames base ph) :
    EqExceptNames base (ProcessPhotoMetadata.stampTitle title ph m) :=
  eqExceptNames_set base ph h m _ rfl rfl rfl rfl

/-- Title stamping changes only `dayTitle`; in particular it changes no
coordinate and no location name. -/
theorem applyTitles_eqn (ps0 : List Photo) (dayLocs : List (ℤ × String))
    (st : List Photo) (base : List Photo) (h : EqExceptNames base st) :
    EqExceptNames base
      (ProcessPhotoMetadata.applyTitles ps0 dayLocs st).1 := by
  unfold ProcessPhotoMetadata.applyTitles
  refine List.foldlRecOn
    (motive := fun acc : List Photo × List ProcessPhotoMetadata.DayEntry =>
      EqExceptNames base acc.1) _ _ _ h ?_
  intro acc hacc e _
  unfold ProcessPhotoMetadata.applyTitlesStep
  refine List.foldlRecOn
    (motive := fun ph : List Photo => EqExceptNames base ph) _ _ _ hacc ?_
  intro ph hph m _
  exact stampTitle_eqn _ base ph m hph

/-- Title stamping leaves positions outside all groups alone. -/
theorem applyTitles_pget_not_mem (ps0 : List Photo)
    (dayLocs : List (ℤ × String)) (st : List Photo) (i : ℕ)
    (hi : ∀ d ∈ sortedDays ps0, i ∉ grp ps0 d) :
    pget (ProcessPhotoMetadata.applyTitles ps0 dayLocs st).1 i
      = pget st i := by
  unfold ProcessPhotoMetadata.applyTitles
  have main : ∀ (l : List (ℕ × ℤ)), (∀ e ∈ l, e.2 ∈ sortedDays ps0) →
      ∀ (acc : List Photo × List ProcessPhotoMetadata.DayEntry),
      pget (l.foldl (ProcessPhotoMetadata.applyTitlesStep ps0 dayLocs) acc).1
          i = pget acc.1 i := by
    intro l
    induction l with
    | nil => intro _ acc; rfl
    | cons e l ih =>
      intro hl acc
      rw [List.foldl_cons,
        ih (fun e' he' => hl e' (List.mem_cons_of_mem _ he'))]
      unfold ProcessPhotoMetadata.applyTitlesStep
      refine List.foldlRecOn
        (motive := fun ph : List Photo => pget ph i = pget acc.1 i)
        _ _ _ rfl ?_
      intro ph hph m hm
      unfold ProcessPhotoMetadata.stampTitle
      rw [pget_set_ne ph m i _
        (fun hmi => (hi e.2 (hl e (List.mem_cons_self e l))) (hmi ▸ hm))]
      exact hph
  refine main _ ?_ _
  intro e he
  have h2 : e.2 ∈ (sortedDays ps0).enum.map Prod.snd :=
    List.mem_map_of_mem _ he
  rwa [List.enum_map_snd] at h2

/-- Membership in `photosWithDate`: exactly the in-range dated indices. -/
theorem mem_withDate_iff (ps : List Photo) (i : ℕ) :
    i ∈ withDate ps ↔ i < ps.length ∧ ((pget ps i).date).isSome = true := by
  unfold withDate datedIdx
  rw [List.mem_insertionSort, List.mem_filter, List.mem_range]

/-- A photo index with no date belongs to no day group. -/
theorem not_mem_grp_of_undated (ps : List Photo) (i : ℕ) (d : ℤ)
    (h : (pget ps i).date = none) : i ∉ grp ps d := by
  intro hm
  have := ((mem_withDate_iff ps i).mp (List.mem_filter.mp hm).1).2
  rw [h] at this
  cases this

/-- The photo list a run returns. -/
theorem runPipeline_photos (g : ℚ → ℚ → Option String)
    (near : Coord → Coord → Bool) (ps : List Photo)
    (c0 : List (ProcessPhotoMetadata.Key × String)) :
    (ProcessPhotoMetadata.runPipeline g near ps c0).photos
      = if (withDate ps).isEmpty then ps
        else
          (ProcessPhotoMetadata.applyTitles ps
            ((sortedDays ps).foldl (ProcessPhotoMetadata.dayStep g near ps)
              ⟨ProcessPhotoMetadata.photosA3 ps,
               ProcessPhotoMetadata.b1 g ps ⟨c0, []⟩, []⟩).dayLocations
            ((sortedDays ps).foldl (ProcessPhotoMetadata.dayStep g near ps)
              ⟨ProcessPhotoMetadata.photosA3 ps,
               ProcessPhotoMetadata.b1 g ps ⟨c0, []⟩, []⟩).photos).1 := by
  unfold ProcessPhotoMetadata.runPipeline
  split <;> rfl

/-- The day entries a run returns. -/
theorem runPipeline_dayEntries (g : ℚ → ℚ → Option String)
    (near : Coord → Coord → Bool) (ps : List Photo)
    (c0 : List (ProcessPhotoMetadata.Key × String)) :
    (ProcessPhotoMetadata.runPipeline g near ps c0).dayEntries
      = if (withDate ps).isEmpty then []
        else
          (ProcessPhotoMetadata.applyTitles ps
            ((sortedDays ps).foldl (ProcessPhotoMetadata.dayStep g near ps)
              ⟨ProcessPhotoMetadata.photosA3 ps,
               ProcessPhotoMetadata.b1 g ps ⟨c0, []⟩, []⟩).dayLocations
            ((sortedDays ps).foldl (ProcessPhotoMetadata.dayStep g near ps)
              ⟨ProcessPhotoMetadata.photosA3 ps,
               ProcessPhotoMetadata.b1 g ps ⟨c0, []⟩, []⟩).photos).2 := by
  unfold ProcessPhotoMetadata.runPipeline
  split <;> rfl

/-- The final pipeline photos differ from the backfilled ones only in
location names and day titles. -/
theorem runPipeline_eqn_photosA3 (g : ℚ → ℚ → Option String)
    (near : Coord → Coord → Bool) (ps : List Photo)
    (c0 : List (ProcessPhotoMetadata.Key × String))
    (he : (withDate ps).isEmpty = false) :
    EqExceptNames (ProcessPhotoMetadata.photosA3 ps)
      (ProcessPhotoMetadata.runPipeline g near ps c0).photos := by
  rw [runPipeline_photos, he]
  simp only [Bool.false_eq_true, if_false]
  exact applyTitles_eqn _ _ _ _
    (daysFold_eqn g near ps _ _ _ (eqExceptNames_refl _))

/-- C6 (amended): the pipeline never overwrites a photo's pre-existing
(truthy) coordinate pair — through backfill, name propagation and title
stamping the photo keeps its own latitude and longitude.  (Pre-existing
*location names* are not protected: see the counterexample.) -/
theorem c6_keeps_pre_existing_coords (g : ℚ → ℚ → Option String)
    (near : Coord → Coord → Bool) (ps : List Photo)
    (c0 : List (ProcessPhotoMetadata.Key × String)) (i : ℕ)
    (hlat : truthyNum (pget ps i).latitude = true)
    (hlon : truthyNum (pget ps i).longitude = true) :
    (pget (ProcessPhotoMetadata.runPipeline g near ps c0).photos i).latitude
        = (pget ps i).latitude
    ∧ (pget (ProcessPhotoMetadata.runPipeline g near ps c0).photos i).longitude
        = (pget ps i).longitude := by
  by_cases he : (withDate ps).isEmpty
  · rw [runPipeline_photos, if_pos he]
    exact ⟨rfl, rfl⟩
  · have h1 : pget (ProcessPhotoMetadata.photosA3 ps) i = pget ps i :=
      photosA3_pget_keep ps i (Or.inr (by rw [hlat, hlon]; rfl))
    have h2 := runPipeline_eqn_photosA3 g near ps c0
      (Bool.not_eq_true _ ▸ eq_false_of_ne_true he)
    obtain ⟨-, hf⟩ := h2
    obtain ⟨-, -, hla, hlo⟩ := hf i
    rw [hla, hlo, h1]
    exact ⟨rfl, rfl⟩

/-- C6 counterexample: a photo entering the pipeline with
`locationName = "Old"` and coordinates equal to its day's anchor leaves the
run with the freshly geocoded anchor name "New" — the pre-existing location
name is overwritten, refuting the claim's locationName half. -/
theorem c6_counterexample :
    (pget namedPhotos 0).locationName = some "Old"
    ∧ (pget (ProcessPhotoMetadata.runPipeline newResolver nearEq
        namedPhotos []).photos 0).locationName = some "New"
    ∧ some ("Old" : String) ≠ some "New" :=
  ⟨rfl, by decide, by decide⟩

/-- C6 witness: a photo with coordinates (3, 4) keeps them across a run. -/
theorem c6_keeps_pre_existing_coords_witness :
    truthyNum (pget mixedPhotos 0).latitude = true
    ∧ truthyNum (pget mixedPhotos 0).longitude = true
    ∧ (pget (ProcessPhotoMetadata.runPipeline failingResolver nearEq
          mixedPhotos []).photos 0).latitude = (pget mixedPhotos 0).latitude :=
  ⟨by decide, by decide,
   (c6_keeps_pre_existing_coords failingResolver nearEq mixedPhotos [] 0
     (by decide) (by decide)).1⟩

/-- C8: every timestamped photo lands in exactly the group of its truncated
calendar day; the groups' day keys are the sorted distinct days (strictly
ascending); each group is ascending by timestamp; and photos without a
timestamp are left untouched by the whole pipeline. -/
theorem c8_day_grouping (ps : List Photo) (g : ℚ → ℚ → Option String)
    (near : Coord → Coord → Bool)
    (c0 : List (ProcessPhotoMetadata.Key × String)) :
    (∀ i, i ∈ withDate ps ↔ i < ps.length
        ∧ ((pget ps i).date).isSome = true)
    ∧ (∀ i, i ∈ withDate ps →
        i ∈ grp ps (dayKeyI ps i) ∧ dayKeyI ps i ∈ sortedDays ps
          ∧ ∀ d, i ∈ grp ps d → d = dayKeyI ps i)
    ∧ List.Pairwise (· < ·) (sortedDays ps)
    ∧ (∀ d, List.Sorted (fun i j => tsD ps i ≤ tsD ps j) (grp ps d))
    ∧ (∀ i, (pget ps i).date = none →
        pget (ProcessPhotoMetadata.runPipeline g near ps c0).photos i
          = pget ps i) := by
  refine ⟨mem_withDate_iff ps, ?_, ?_, grp_sorted ps, ?_⟩
  · intro i hi
    refine ⟨?_, ?_, ?_⟩
    · rw [grp, List.mem_filter]
      exact ⟨hi, by simp⟩
    · unfold sortedDays
      rw [List.mem_insertionSort, List.mem_dedup, List.mem_map]
      exact ⟨i, hi, rfl⟩
    · intro d hd
      have := (List.mem_filter.mp hd).2
      simp at this
      exact this.symm
  · have hsorted : List.Sorted (· ≤ ·) (sortedDays ps) := by
      unfold sortedDays
      exact List.sorted_insertionSort _ _
    have hnodup : (sortedDays ps).Nodup := by
      unfold sortedDays
      exact ((List.perm_insertionSort _ _).nodup_iff).mpr
        (List.nodup_dedup _)
    exact (hsorted.and hnodup).imp (fun h => lt_of_le_of_ne h.1 h.2)
  · intro i hu
    by_cases he : (withDate ps).isEmpty
    · rw [runPipeline_photos, if_pos he]
    · rw [runPipeline_photos, if_neg he]
      rw [applyTitles_pget_not_mem ps _ _ i
        (fun d _ => not_mem_grp_of_undated ps i d hu)]
      rw [daysFold_pget_not_mem g near ps _ _ i
        (fun d _ => not_mem_grp_of_undated ps i d hu)]
      exact photosA3_pget_keep ps i (Or.inl hu)

/-- C8 witness: in a mixed album, the timestamped photo is in its day's
group and the timestamp-less photo comes out of the run untouched. -/
theorem c8_day_grouping_witness :
    (1 ∈ withDate mixedPhotos)
    ∧ 1 ∈ grp mixedPhotos (dayKeyI mixedPhotos 1)
    ∧ (pget mixedPhotos 0).date = none
    ∧ pget (ProcessPhotoMetadata.runPipeline failingResolver nearEq
        mixedPhotos []).photos 0 = pget mixedPhotos 0 :=
  ⟨by decide,
   ((c8_day_grouping mixedPhotos failingResolver nearEq []).2.1 1
     (by decide)).1,
   by decide,
   (c8_day_grouping mixedPhotos failingResolver nearEq []).2.2.2.2 0
     (by decide)⟩

/-- Truthy optionals hold a nonzero value. -/
theorem truthyNum_getD_ne_zero (o : Option ℚ) (h : truthyNum o = true) :
    o.getD 0 ≠ 0 := by
  cases o with
  | none => cases h
  | some x => simpa [truthyNum] using h

/-- Truthiness of a present value. -/
theorem truthyNum_some_iff (x : ℚ) : truthyNum (some x) = true ↔ x ≠ 0 := by
  simp [truthyNum]

/-- The album coordinate components are never zero: a found source photo
has truthy coordinates, and the default is nonzero. -/
theorem albumCoords_ne_zero (ps : List Photo) :
    (ProcessPhotoMetadata.albumCoords ps).1 ≠ 0
    ∧ (ProcessPhotoMetadata.albumCoords ps).2 ≠ 0 := by
  unfold ProcessPhotoMetadata.albumCoords
  split
  · cases hfs : ((sortedDays ps).drop 1).findSome?
        (fun d => firstWithCoords ps (grp ps d)) with
    | none =>
      constructor
      · show (ProcessPhotoMetadata.DEFAULT_COORDS).1 ≠ 0
        decide
      · show (ProcessPhotoMetadata.DEFAULT_COORDS).2 ≠ 0
        decide
    | some i =>
      dsimp only [coordD, latD, lonD]
      obtain ⟨d, -, hfw⟩ := List.exists_of_findSome?_eq_some hfs
      have hco := List.find?_some hfw
      unfold hasCoords at hco
      have h1 := truthyNum_getD_ne_zero _ (Bool.and_elim_left hco)
      have h2 := truthyNum_getD_ne_zero _ (Bool.and_elim_right hco)
      exact ⟨h1, h2⟩
  · exact ⟨by decide, by decide⟩

/-- The day coordinate components are never zero. -/
theorem dayCoords_ne_zero (ps : List Photo) (d : ℤ) :
    (ProcessPhotoMetadata.dayCoords ps d).latitude ≠ 0
    ∧ (ProcessPhotoMetadata.dayCoords ps d).longitude ≠ 0 := by
  simp only [ProcessPhotoMetadata.dayCoords]
  cases hl : ((grp ps d).filter (fun i => hasCoords (pget ps i))).getLast? with
  | none =>
    dsimp only
    exact albumCoords_ne_zero ps
  | some i =>
    dsimp only [latD, lonD]
    have hmem : i ∈ (grp ps d).filter (fun i => hasCoords (pget ps i)) := by
      obtain ⟨ys, hys⟩ := List.getLast?_eq_some_iff.mp hl
      rw [hys]
      simp
    have hco := (List.mem_filter.mp hmem).2
    unfold hasCoords at hco
    exact ⟨truthyNum_getD_ne_zero _ (Bool.and_elim_left hco),
      truthyNum_getD_ne_zero _ (Bool.and_elim_right hco)⟩

/-- A backfill fold over indices avoiding `i` leaves position `i` alone. -/
theorem a3_foldl_pget_not_mem (ps0 : List Photo) (l : List ℕ)
    (st : List Photo) (i : ℕ) (hi : i ∉ l) :
    pget (l.foldl (ProcessPhotoMetadata.a3Step ps0) st) i = pget st i := by
  refine List.foldlRecOn (motive := fun st' => pget st' i = pget st i)
    _ _ _ rfl ?_
  intro st' h' m hm
  rcases a3Step_cases ps0 st' m with hc | ⟨a, hc, -⟩
  · rw [hc]; exact h'
  · rw [hc, pget_set_ne st' m i a (fun hmi => hi (hmi ▸ hm))]
    exact h'

/-- Backfill folds preserve the length. -/
theorem a3_foldl_length (ps0 : List Photo) (l : List ℕ) (st : List Photo) :
    (l.foldl (ProcessPhotoMetadata.a3Step ps0) st).length = st.length := by
  refine List.foldlRecOn
    (motive := fun st' : List Photo => st'.length = st.length) _ _ _ rfl ?_
  intro st' h' m _
  rcases a3Step_cases ps0 st' m with hc | ⟨a, hc, -⟩
  · rw [hc]; exact h'
  · rw [hc, List.length_set]
    exact h'

/-- Firing the backfill step on a coordinate-less dated photo writes truthy
coordinates at its position. -/
theorem a3Step_fires_truthy (ps0 st : List Photo) (i : ℕ) (t : ℤ)
    (hlen : i < st.length)
    (hdate : (pget st i).date = some t)
    (hzero : (truthyNum (pget st i).latitude
        && truthyNum (pget st i).longitude) = false) :
    truthyNum (pget (ProcessPhotoMetadata.a3Step ps0 st i) i).latitude = true
    ∧ truthyNum
        (pget (ProcessPhotoMetadata.a3Step ps0 st i) i).longitude = true := by
  simp only [ProcessPhotoMetadata.a3Step, hdate]
  rw [hzero]
  simp only [Bool.false_eq_true, if_false]
  cases hpwc : (ProcessPhotoMetadata.a3DayPhotos st
      (dayKeyOf t)).filter (fun j => hasCoords (pget st j)) with
  | nil =>
    rw [pget_set_eq_ite, if_pos ⟨rfl, hlen⟩]
    dsimp only
    split
    · exact ⟨(truthyNum_some_iff _).mpr (dayCoords_ne_zero ps0 _).1,
        (truthyNum_some_iff _).mpr (dayCoords_ne_zero ps0 _).2⟩
    · exact ⟨(truthyNum_some_iff _).mpr (albumCoords_ne_zero ps0).1,
        (truthyNum_some_iff _).mpr (albumCoords_ne_zero ps0).2⟩
  | cons c rest =>
    rw [pget_set_eq_ite, if_pos ⟨rfl, hlen⟩]
    have hne : (c :: rest : List ℕ) ≠ [] := by simp
    have hmem2 : closestIn st t (c :: rest)
        ∈ (ProcessPhotoMetadata.a3DayPhotos st (dayKeyOf t)).filter
          (fun j => hasCoords (pget st j)) := by
      rw [hpwc]
      exact (closestIn_spec st t (c :: rest) hne).1
    have hco := (List.mem_filter.mp hmem2).2
    unfold hasCoords at hco
    exact ⟨Bool.and_elim_left hco, Bool.and_elim_right hco⟩

/-- Splitting an index range at a visited position. -/
theorem range_split_at (i n : ℕ) (h : i < n) :
    List.range n = List.range' 0 i ++ i :: List.range' (i + 1) (n - i - 1) := by
  rw [List.range_eq_range']
  have h2 : n = (n - i) + i := by omega
  rw [h2, ← List.range'_append 0 i (n - i) 1]
  have h3 : n - i = (n - i - 1) + 1 := by omega
  rw [h3, List.range'_succ]
  simp [Nat.one_mul]

/-- The backfill pass gives a coordinate-less dated photo truthy
coordinates. -/
theorem photosA3_zero_truthy (ps : List Photo) (i : ℕ) (hi : i < ps.length)
    (hdate : ((pget ps i).date).isSome = true)
    (hz : hasCoords (pget ps i) = false) :
    truthyNum (pget (ProcessPhotoMetadata.photosA3 ps) i).latitude = true
    ∧ truthyNum (pget (ProcessPhotoMetadata.photosA3 ps) i).longitude
        = true := by
  obtain ⟨t, ht⟩ := Option.isSome_iff_exists.mp hdate
  unfold ProcessPhotoMetadata.photosA3
  rw [range_split_at i ps.length hi, List.foldl_append, List.foldl_cons]
  set st1 := (List.range' 0 i).foldl (ProcessPhotoMetadata.a3Step ps) ps
    with hst1
  have h1 : pget st1 i = pget ps i := by
    rw [hst1]
    exact a3_foldl_pget_not_mem ps _ ps i (by
      intro hmem
      have := List.mem_range'_1.mp hmem
      omega)
  have hlen1 : i < st1.length := by
    rw [hst1, a3_foldl_length]
    exact hi
  have h2 := a3Step_fires_truthy ps st1 i t hlen1 (by rw [h1]; exact ht)
    (by rw [h1]; exact hz)
  have h3 : pget ((List.range' (i + 1) (ps.length - i - 1)).foldl
      (ProcessPhotoMetadata.a3Step ps)
      (ProcessPhotoMetadata.a3Step ps st1 i)) i
      = pget (ProcessPhotoMetadata.a3Step ps st1 i) i := by
    exact a3_foldl_pget_not_mem ps _ _ i (by
      intro hmem
      have := List.mem_range'_1.mp hmem
      omega)
  rw [h3]
  exact h2

/-- A dated photo's day key is among the sorted day keys. -/
theorem contains_sortedDays_of_withDate (ps : List Photo) (i : ℕ)
    (hiw : i ∈ withDate ps) :
    (sortedDays ps).contains (dayKeyI ps i) = true := by
  have hmem : dayKeyI ps i ∈ sortedDays ps := by
    unfold sortedDays
    rw [List.mem_insertionSort, List.mem_dedup]
    exact List.mem_map_of_mem _ hiw
  exact List.elem_eq_true_of_mem hmem

/-- The fallback coordinate components are never zero. -/
theorem a3Fallback_ne_zero (ps : List Photo) (dk : ℤ) :
    (a3Fallback ps dk).1 ≠ 0 ∧ (a3Fallback ps dk).2 ≠ 0 := by
  unfold a3Fallback
  split
  · exact ⟨(dayCoords_ne_zero ps dk).1, (dayCoords_ne_zero ps dk).2⟩
  · exact albumCoords_ne_zero ps

/-- The pristine input satisfies the day invariant. -/
theorem a3DayInv_init (ps : List Photo) (dk : ℤ) : A3DayInv ps dk ps :=
  ⟨rfl, fun _ => rfl, fun _ _ _ => Or.inl rfl⟩

/-- On a native-coordinate-free day, any current-array candidate the
backfill step could copy from already carries the fallback coordinate. -/
theorem a3_pwc_fallback (ps : List Photo) (dk : ℤ)
    (hfree : (grp ps dk).filter (fun j => hasCoords (pget ps j)) = [])
    (st : List Photo) (h : A3DayInv ps dk st) (j₀ : ℕ)
    (hj₀ : j₀ ∈ (ProcessPhotoMetadata.a3DayPhotos st dk).filter
        (fun j => hasCoords (pget st j))) :
    (pget st j₀).latitude = some (a3Fallback ps dk).1
    ∧ (pget st j₀).longitude = some (a3Fallback ps dk).2 := by
  obtain ⟨hlen, hdates, hday⟩ := h
  obtain ⟨hmem1, hco⟩ := List.mem_filter.mp hj₀
  obtain ⟨hrange, hcond⟩ := List.mem_filter.mp hmem1
  have hd1 : ((pget st j₀).date).isSome = true := Bool.and_elim_left hcond
  have hd2 : (dayKeyOf (tsD st j₀) == dk) = true := Bool.and_elim_right hcond
  have hts : tsD st j₀ = tsD ps j₀ := by unfold tsD; rw [hdates j₀]
  have hdps : ((pget ps j₀).date).isSome = true := by
    rw [← hdates j₀]; exact hd1
  have hdk : dayKeyI ps j₀ = dk := by
    unfold dayKeyI
    rw [← hts]
    exact eq_of_beq hd2
  rcases hday j₀ hdps hdk with hpj | hV
  · exfalso
    have hj₀w : j₀ ∈ withDate ps := (mem_withDate_iff ps j₀).mpr
      ⟨by rw [← hlen]; exact List.mem_range.mp hrange, hdps⟩
    have hj₀g : j₀ ∈ grp ps dk := by
      rw [grp, List.mem_filter]
      exact ⟨hj₀w, beq_iff_eq.mpr hdk⟩
    have hnc := List.filter_eq_nil_iff.mp hfree j₀ hj₀g
    exact hnc (hpj ▸ hco)
  · exact hV

/-- One A3 step preserves the native-free-day invariant. -/
theorem a3Step_inv (ps : List Photo) (dk : ℤ)
    (hfree : (grp ps dk).filter (fun j => hasCoords (pget ps j)) = [])
    (st : List Photo) (m : ℕ) (h : A3DayInv ps dk st) :
    A3DayInv ps dk (ProcessPhotoMetadata.a3Step ps st m) := by
  obtain ⟨hlen, hdates, hday⟩ := h
  have hset : ∀ a : Photo, a.date = (pget st m).date →
      (((pget ps m).date).isSome = true → dayKeyI ps m = dk →
        a.latitude = some (a3Fallback ps dk).1
        ∧ a.longitude = some (a3Fallback ps dk).2) →
      A3DayInv ps dk (st.set m a) := by
    intro a hadate hacoords
    refine ⟨by rw [List.length_set]; exact hlen, ?_, ?_⟩
    · intro j
      by_cases hc : m = j ∧ m < st.length
      · rw [pget_set_eq_ite, if_pos hc, hadate]
        obtain ⟨rfl, -⟩ := hc
        exact hdates m
      · rw [pget_set_eq_ite, if_neg hc]
        exact hdates j
    · intro j hjd hjk
      by_cases hc : m = j ∧ m < st.length
      · rw [pget_set_eq_ite, if_pos hc]
        obtain ⟨rfl, -⟩ := hc
        exact Or.inr (hacoords hjd hjk)
      · rw [pget_set_eq_ite, if_neg hc]
        exact hday j hjd hjk
  simp only [ProcessPhotoMetadata.a3Step]
  cases hdate : (pget st m).date with
  | none => exact ⟨hlen, hdates, hday⟩
  | some t =>
    dsimp only
    split
    · exact ⟨hlen, hdates, hday⟩
    · cases hpwc : (ProcessPhotoMetadata.a3DayPhotos st
          (dayKeyOf t)).filter (fun j => hasCoords (pget st j)) with
      | nil =>
        dsimp only
        apply hset
        · exact hdate.symm
        · intro hmd hmk
          have hts : tsD ps m = t := by
            unfold tsD
            rw [← hdates m, hdate]
            rfl
          have hdkt : dayKeyOf t = dk := by rw [← hts]; exact hmk
          rw [hdkt]
          exact ⟨rfl, rfl⟩
      | cons c rest =>
        dsimp only
        apply hset
        · exact hdate.symm
        · intro hmd hmk
          have hts : tsD ps m = t := by
            unfold tsD
            rw [← hdates m, hdate]
            rfl
          have hdkt : dayKeyOf t = dk := by rw [← hts]; exact hmk
          have hmemj : closestIn st t (c :: rest)
              ∈ (ProcessPhotoMetadata.a3DayPhotos st (dayKeyOf t)).filter
                (fun j => hasCoords (pget st j)) := by
            rw [hpwc]
            exact (closestIn_spec st t (c :: rest) (by simp)).1
          rw [hdkt] at hmemj
          obtain ⟨hVlat, hVlon⟩ := a3_pwc_fallback ps dk hfree st
            ⟨hlen, hdates, hday⟩ _ hmemj
          exact ⟨hVlat, hVlon⟩

/-- An A3 fold preserves the native-free-day invariant. -/
theorem a3_foldl_inv (ps : List Photo) (dk : ℤ)
    (hfree : (grp ps dk).filter (fun j => hasCoords (pget ps j)) = [])
    (l : List ℕ) (st : List Photo) (h : A3DayInv ps dk st) :
    A3DayInv ps dk (l.foldl (ProcessPhotoMetadata.a3Step ps) st) := by
  refine List.foldlRecOn (motive := fun st' : List Photo =>
    A3DayInv ps dk st') _ _ _ h ?_
  intro st' h' m _
  exact a3Step_inv ps dk hfree st' m h'

/-- An A3 step never touches a position holding truthy coordinates. -/
theorem a3Step_keeps_truthy (ps st : List Photo) (m i : ℕ)
    (h : (truthyNum (pget st i).latitude
        && truthyNum (pget st i).longitude) = true) :
    pget (ProcessPhotoMetadata.a3Step ps st m) i = pget st i := by
  rcases eq_or_ne m i with rfl | hne
  · rw [a3Step_id_of ps st m (Or.inr h)]
  · rcases a3Step_cases ps st m with hc | ⟨a, hc, -⟩
    · rw [hc]
    · rw [hc, pget_set_ne st m i a hne]

/-- An A3 fold never touches a position holding truthy coordinates. -/
theorem a3_foldl_keeps_truthy (ps : List Photo) (l : List ℕ)
    (st : List Photo) (i : ℕ)
    (h : (truthyNum (pget st i).latitude
        && truthyNum (pget st i).longitude) = true) :
    pget (l.foldl (ProcessPhotoMetadata.a3Step ps) st) i = pget st i := by
  refine List.foldlRecOn (motive := fun st' : List Photo =>
    pget st' i = pget st i) _ _ _ rfl ?_
  intro st' h' m _
  rw [a3Step_keeps_truthy ps st' m i (by rw [h']; exact h)]
  exact h'

/-- Visiting a coordinate-less dated photo of a native-free day writes
exactly the fallback coordinate at its position. -/
theorem a3Step_native_free_writes (ps : List Photo) (dk : ℤ)
    (hfree : (grp ps dk).filter (fun j => hasCoords (pget ps j)) = [])
    (st : List Photo) (m : ℕ) (t : ℤ) (hlen : m < st.length)
    (hdate : (pget st m).date = some t) (hdk : dayKeyOf t = dk)
    (hmiss : (truthyNum (pget st m).latitude
        && truthyNum (pget st m).longitude) = false)
    (hinv : A3DayInv ps dk st) :
    (pget (ProcessPhotoMetadata.a3Step ps st m) m).latitude
        = some (a3Fallback ps dk).1
    ∧ (pget (ProcessPhotoMetadata.a3Step ps st m) m).longitude
        = some (a3Fallback ps dk).2 := by
  simp only [ProcessPhotoMetadata.a3Step, hdate]
  rw [hmiss]
  simp only [Bool.false_eq_true, if_false]
  cases hpwc : (ProcessPhotoMetadata.a3DayPhotos st
      (dayKeyOf t)).filter (fun j => hasCoords (pget st j)) with
  | nil =>
    rw [pget_set_eq_ite, if_pos ⟨rfl, hlen⟩]
    rw [hdk]
    exact ⟨rfl, rfl⟩
  | cons c rest =>
    rw [pget_set_eq_ite, if_pos ⟨rfl, hlen⟩]
    have hmemj : closestIn st t (c :: rest)
        ∈ (ProcessPhotoMetadata.a3DayPhotos st (dayKeyOf t)).filter
          (fun j => hasCoords (pget st j)) := by
      rw [hpwc]
      exact (closestIn_spec st t (c :: rest) (by simp)).1
    rw [hdk] at hmemj
    obtain ⟨hVlat, hVlon⟩ := a3_pwc_fallback ps dk hfree st hinv _ hmemj
    exact ⟨hVlat, hVlon⟩

/-- The whole A3 pass gives a coordinate-less dated photo of a
native-free day exactly the fallback coordinate. -/
theorem photosA3_native_free_day (ps : List Photo) (i : ℕ)
    (hi : i < ps.length) (hdate : ((pget ps i).date).isSome = true)
    (hmiss : (truthyNum (pget ps i).latitude
        && truthyNum (pget ps i).longitude) = false)
    (hfree : (grp ps (dayKeyI ps i)).filter
        (fun j => hasCoords (pget ps j)) = []) :
    (pget (ProcessPhotoMetadata.photosA3 ps) i).latitude
        = some (a3Fallback ps (dayKeyI ps i)).1
    ∧ (pget (ProcessPhotoMetadata.photosA3 ps) i).longitude
        = some (a3Fallback ps (dayKeyI ps i)).2 := by
  obtain ⟨t, ht⟩ := Option.isSome_iff_exists.mp hdate
  have hts : tsD ps i = t := by unfold tsD; rw [ht]; rfl
  have hdkt : dayKeyOf t = dayKeyI ps i := by
    unfold dayKeyI
    rw [hts]
  unfold ProcessPhotoMetadata.photosA3
  rw [range_split_at i ps.length hi, List.foldl_append, List.foldl_cons]
  set st1 := (List.range' 0 i).foldl (ProcessPhotoMetadata.a3Step ps) ps
    with hst1
  have hinv1 : A3DayInv ps (dayKeyI ps i) st1 :=
    a3_foldl_inv ps (dayKeyI ps i) hfree _ ps (a3DayInv_init ps _)
  have h1 : pget st1 i = pget ps i := by
    rw [hst1]
    exact a3_foldl_pget_not_mem ps _ ps i (by
      intro hmem
      have := List.mem_range'_1.mp hmem
      omega)
  have hlen1 : i < st1.length := by
    rw [hst1, a3_foldl_length]
    exact hi
  have h2 := a3Step_native_free_writes ps (dayKeyI ps i) hfree st1 i t hlen1
    (by rw [h1]; exact ht) hdkt (by rw [h1]; exact hmiss) hinv1
  have htr : (truthyNum (pget (ProcessPhotoMetadata.a3Step ps st1 i)
        i).latitude
      && truthyNum (pget (ProcessPhotoMetadata.a3Step ps st1 i)
        i).longitude) = true := by
    rw [h2.1, h2.2, Bool.and_eq_true]
    exact ⟨(truthyNum_some_iff _).mpr (a3Fallback_ne_zero ps _).1,
      (truthyNum_some_iff _).mpr (a3Fallback_ne_zero ps _).2⟩
  rw [a3_foldl_keeps_truthy ps _ _ i htr]
  exact h2

/-- C3 (amended): for a timestamped photo missing a coordinate —
(a) `update-album-metadata`, which reads only the pristine photo list,
pushes the coordinate of the same-day photo with a *native* coordinate
that minimizes the absolute timestamp difference (ties going to the
chronologically first); (b) when no photo of the day has a native
coordinate, `update-album-metadata` pushes exactly the day coordinate,
and `process-photo-metadata`'s in-place pass likewise leaves the photo
holding exactly the day coordinate computed from the pristine input;
(c) the day-coordinate selection of both functions reads only native
coordinates: its source photo has truthy coordinates in the pristine
input.  (`process-photo-metadata`'s *backfill*, by contrast, re-reads its
own in-place updates, so on a day that has native coordinates a photo may
receive a previously backfilled coordinate that is not the time-nearest
native one: see the counterexample.) -/
theorem c3_backfill_native_nearest (ps : List Photo) (i : ℕ)
    (hmiss : (truthyNum (pget ps i).latitude
        && truthyNum (pget ps i).longitude) = false)
    (hiw : i ∈ withDate ps) :
    (((withDate ps).filter (fun j => dayKeyI ps j == dayKeyI ps i)).filter
        (fun j => hasCoords (pget ps j)) ≠ [] →
      ∃ j ∈ ((withDate ps).filter
          (fun j => dayKeyI ps j == dayKeyI ps i)).filter
          (fun j => hasCoords (pget ps j)),
        UpdateAlbumMetadata.updateFor ps i
            = some ⟨(pget ps i).id, latD ps j, lonD ps j, none⟩
          ∧ hasCoords (pget ps j) = true
          ∧ ∀ m ∈ ((withDate ps).filter
              (fun j => dayKeyI ps j == dayKeyI ps i)).filter
              (fun j => hasCoords (pget ps j)),
              |tsD ps i - tsD ps j| ≤ |tsD ps i - tsD ps m|)
    ∧ (((withDate ps).filter (fun j => dayKeyI ps j == dayKeyI ps i)).filter
          (fun j => hasCoords (pget ps j)) = [] →
        UpdateAlbumMetadata.updateFor ps i
            = some ⟨(pget ps i).id,
                (UpdateAlbumMetadata.dayCoords ps (dayKeyI ps i)).1,
                (UpdateAlbumMetadata.dayCoords ps (dayKeyI ps i)).2, none⟩
          ∧ (pget (ProcessPhotoMetadata.photosA3 ps) i).latitude
              = some (ProcessPhotoMetadata.dayCoords ps
                  (dayKeyI ps i)).latitude
          ∧ (pget (ProcessPhotoMetadata.photosA3 ps) i).longitude
              = some (ProcessPhotoMetadata.dayCoords ps
                  (dayKeyI ps i)).longitude)
    ∧ ∀ j, (((withDate ps).filter
          (fun j => dayKeyI ps j == dayKeyI ps i)).filter
          (fun j => hasCoords (pget ps j))).getLast? = some j →
        ProcessPhotoMetadata.dayCoords ps (dayKeyI ps i)
            = ⟨latD ps j, lonD ps j, (pget ps j).id⟩
        ∧ UpdateAlbumMetadata.dayCoords ps (dayKeyI ps i) = coordD ps j
        ∧ hasCoords (pget ps j) = true := by
  have hi : i < ps.length := ((mem_withDate_iff ps i).mp hiw).1
  have hdate : ((pget ps i).date).isSome = true :=
    ((mem_withDate_iff ps i).mp hiw).2
  have hcont := contains_sortedDays_of_withDate ps i hiw
  have hmemd : dayKeyI ps i ∈ sortedDays ps := by
    unfold sortedDays
    rw [List.mem_insertionSort, List.mem_dedup]
    exact List.mem_map_of_mem _ hiw
  refine ⟨?_, ?_, ?_⟩
  · intro hne
    obtain ⟨hmem, hmin⟩ := closestIn_spec ps (tsD ps i) _ hne
    refine ⟨closestIn ps (tsD ps i) _, hmem, ?_,
      (List.mem_filter.mp hmem).2, hmin⟩
    rcases hx : ((withDate ps).filter
        (fun j => dayKeyI ps j == dayKeyI ps i)).filter
        (fun j => hasCoords (pget ps j)) with _ | ⟨c, rest⟩
    · exact absurd hx hne
    · simp only [UpdateAlbumMetadata.updateFor]
      rw [hx]
      simp [hmiss, coordD]
  · intro hnil
    have hfb : a3Fallback ps (dayKeyI ps i)
        = ((ProcessPhotoMetadata.dayCoords ps (dayKeyI ps i)).latitude,
           (ProcessPhotoMetadata.dayCoords ps (dayKeyI ps i)).longitude) := by
      unfold a3Fallback
      rw [if_pos hcont]
    obtain ⟨hla, hlo⟩ := photosA3_native_free_day ps i hi hdate hmiss hnil
    rw [hfb] at hla hlo
    refine ⟨?_, hla, hlo⟩
    simp only [UpdateAlbumMetadata.updateFor]
    rw [hnil]
    simp [hmiss, hmemd]
  · intro j hj
    have hmemj : j ∈ ((withDate ps).filter
        (fun j => dayKeyI ps j == dayKeyI ps i)).filter
        (fun j => hasCoords (pget ps j)) := by
      obtain ⟨ys, hys⟩ := List.getLast?_eq_some_iff.mp hj
      rw [hys]
      simp
    refine ⟨?_, ?_, (List.mem_filter.mp hmemj).2⟩
    · simp only [ProcessPhotoMetadata.dayCoords, grp]
      rw [hj]
    · simp only [UpdateAlbumMetadata.dayCoords, grp]
      rw [hj]

/-- C3 witness: on the counterexample album, `update-album-metadata`
backfills `m2` from the native `n2` at (50, 50). -/
theorem c3_backfill_native_nearest_witness :
    ∃ j ∈ ((withDate backfillPhotos).filter
        (fun j => dayKeyI backfillPhotos j == dayKeyI backfillPhotos 1)).filter
        (fun j => hasCoords (pget backfillPhotos j)),
      UpdateAlbumMetadata.updateFor backfillPhotos 1
          = some ⟨(pget backfillPhotos 1).id, latD backfillPhotos j,
              lonD backfillPhotos j, none⟩
        ∧ hasCoords (pget backfillPhotos j) = true
        ∧ ∀ m ∈ ((withDate backfillPhotos).filter
            (fun j => dayKeyI backfillPhotos j
              == dayKeyI backfillPhotos 1)).filter
            (fun j => hasCoords (pget backfillPhotos j)),
            |tsD backfillPhotos 1 - tsD backfillPhotos j|
              ≤ |tsD backfillPhotos 1 - tsD backfillPhotos m| :=
  (c3_backfill_native_nearest backfillPhotos 1 (by decide) (by decide)).1 (by decide)

/-- C10: a photo whose native latitude or longitude is exactly 0 fails the
truthiness presence check, so it is never a source for album or day
coordinate selection, and the backfill pass replaces its own coordinates
with (truthy, hence different) backfilled values. -/
theorem c10_zero_coordinate_is_absent (ps : List Photo)
    (g : ℚ → ℚ → Option String) (near : Coord → Coord → Bool)
    (c0 : List (ProcessPhotoMetadata.Key × String)) (i : ℕ)
    (hi : i < ps.length)
    (hdate : ((pget ps i).date).isSome = true)
    (hzero : (pget ps i).latitude = some 0
      ∨ (pget ps i).longitude = some 0) :
    hasCoords (pget ps i) = false
    ∧ (∀ d, i ∉ (grp ps d).filter (fun j => hasCoords (pget ps j)))
    ∧ (∀ j, (((sortedDays ps).drop 1).flatMap (grp ps)).find?
        (fun m => hasCoords (pget ps m)) = some j → j ≠ i)
    ∧ truthyNum
        (pget (ProcessPhotoMetadata.runPipeline g near ps c0).photos i).latitude
        = true
    ∧ truthyNum
        (pget (ProcessPhotoMetadata.runPipeline g near ps c0).photos i).longitude
        = true := by
  have hz : hasCoords (pget ps i) = false := by
    rcases hzero with h | h <;> simp [hasCoords, h, truthyNum]
  have hmem : i ∈ withDate ps := (mem_withDate_iff ps i).mpr ⟨hi, hdate⟩
  have hne : (withDate ps).isEmpty = false := by
    cases h : (withDate ps).isEmpty with
    | true =>
      rw [List.isEmpty_iff.mp h] at hmem
      cases hmem
    | false => rfl
  have htr := photosA3_zero_truthy ps i hi hdate hz
  have heqn := runPipeline_eqn_photosA3 g near ps c0 hne
  obtain ⟨-, hf⟩ := heqn
  obtain ⟨-, -, hla, hlo⟩ := hf i
  refine ⟨hz, ?_, ?_, ?_, ?_⟩
  · intro d hmem2
    have := (List.mem_filter.mp hmem2).2
    rw [hz] at this
    cases this
  · intro j hfind hji
    have hcj := List.find?_some hfind
    rw [hji, hz] at hcj
    cases hcj
  · rw [hla]
    exact htr.1
  · rw [hlo]
    exact htr.2

/-- C10 witness: on the equator photo `z` (latitude exactly 0), the
presence check fails and the run replaces both of its coordinates. -/
theorem c10_zero_coordinate_is_absent_witness :
    hasCoords (pget zeroPhotos 0) = false
    ∧ truthyNum (pget (ProcessPhotoMetadata.runPipeline failingResolver
        nearEq zeroPhotos []).photos 0).latitude = true :=
  ⟨(c10_zero_coordinate_is_absent zeroPhotos failingResolver nearEq [] 0
      (by decide) (by decide) (Or.inl (by decide))).1,
   (c10_zero_coordinate_is_absent zeroPhotos failingResolver nearEq [] 0
      (by decide) (by decide) (Or.inl (by decide))).2.2.2.1⟩

/-! ### The geocode-cache call-log invariant -/

/-- Appending one log entry appends to exactly its cell's call list. -/
theorem callsFor_append_entry (c : List (ProcessPhotoMetadata.Key × String))
    (log : List (ProcessPhotoMetadata.Key × Option String))
    (key : ProcessPhotoMetadata.Key) (r : Option String)
    (k : ProcessPhotoMetadata.Key) :
    ProcessPhotoMetadata.callsFor ⟨c, log ++ [(key, r)]⟩ k
      = ProcessPhotoMetadata.callsFor ⟨c, log⟩ k
        ++ if key = k then [r] else [] := by
  unfold ProcessPhotoMetadata.callsFor
  rw [List.filter_append, List.map_append]
  congr 1
  by_cases h : key = k
  · simp [List.filter, h]
  · have hb : (key == k) = false := beq_eq_false_iff_ne.mpr h
    simp [List.filter, hb, h]

/-- The call lists ignore the cache component. -/
theorem callsFor_cache_irrelevant
    (c c' : List (ProcessPhotoMetadata.Key × String))
    (log : List (ProcessPhotoMetadata.Key × Option String))
    (k : ProcessPhotoMetadata.Key) :
    ProcessPhotoMetadata.callsFor ⟨c, log⟩ k
      = ProcessPhotoMetadata.callsFor ⟨c', log⟩ k := rfl

/-- Looking through a freshly stored entry. -/
theorem lookupCache_cons (key : ProcessPhotoMetadata.Key) (name : String)
    (c : List (ProcessPhotoMetadata.Key × String))
    (k : ProcessPhotoMetadata.Key) :
    ProcessPhotoMetadata.lookupCache ((key, name) :: c) k
      = if key = k then some name
        else ProcessPhotoMetadata.lookupCache c k := by
  unfold ProcessPhotoMetadata.lookupCache
  rw [List.find?_cons]
  by_cases h : key = k
  · simp [h]
  · have hb : (key == k) = false := beq_eq_false_iff_ne.mpr h
    simp [hb, h]

/-- If a cell's calls satisfy the invariant and the cell is not cached,
every one of its calls so far failed. -/
theorem calls_all_none (l : List (Option String))
    (h1 : l.dropLast.all Option.isNone = true)
    (h2 : ∀ v, l.getLast? = some (some v) → False) :
    l.all Option.isNone = true := by
  cases hl : l.getLast? with
  | none => rw [List.getLast?_eq_none_iff.mp hl]; rfl
  | some o =>
    obtain ⟨ys, rfl⟩ := List.getLast?_eq_some_iff.mp hl
    rw [List.dropLast_concat] at h1
    rw [List.all_append]
    cases o with
    | some v => exact absurd (List.getLast?_concat ys) (by
        intro hcon
        exact h2 v (by rw [hcon]))
    | none => simp [h1]

/-- One `reverseGeocode` call preserves the call-log invariant. -/
theorem reverseGeocode_good (g : ℚ → ℚ → Option String)
    (s : ProcessPhotoMetadata.GS) (lat lon : ℚ)
    (h : ProcessPhotoMetadata.GoodGS s) :
    ProcessPhotoMetadata.GoodGS
      (ProcessPhotoMetadata.reverseGeocode g s lat lon).2 := by
  simp only [ProcessPhotoMetadata.reverseGeocode]
  cases hc : ProcessPhotoMetadata.lookupCache s.cache (quant lat, quant lon) with
  | some v => exact h
  | none =>
    have hnone : (ProcessPhotoMetadata.callsFor s
        ((quant lat, quant lon))).all Option.isNone = true := by
      refine calls_all_none _ (h _).1 ?_
      intro v hv
      have := (h ((quant lat, quant lon))).2 v hv
      rw [hc] at this
      cases this
    cases hg : g lat lon with
    | some name =>
      dsimp only
      intro k
      by_cases hk : ((quant lat, quant lon) : ProcessPhotoMetadata.Key) = k
      · subst hk
        rw [callsFor_append_entry, if_pos rfl]
        constructor
        · rw [List.dropLast_concat]
          exact (callsFor_cache_irrelevant _ s.cache _ _) ▸ hnone
        · intro v _
          rw [lookupCache_cons, if_pos rfl]
          rfl
      · rw [callsFor_append_entry, if_neg hk, List.append_nil]
        refine ⟨(h k).1, ?_⟩
        intro v hv
        rw [lookupCache_cons, if_neg hk]
        exact (h k).2 v hv
    | none =>
      dsimp only
      intro k
      by_cases hk : ((quant lat, quant lon) : ProcessPhotoMetadata.Key) = k
      · subst hk
        rw [callsFor_append_entry, if_pos rfl]
        constructor
        · rw [List.dropLast_concat]
          exact (callsFor_cache_irrelevant _ s.cache _ _) ▸ hnone
        · intro v hv
          rw [List.getLast?_concat] at hv
          cases hv
      · rw [callsFor_append_entry, if_neg hk, List.append_nil]
        exact h k

/-- B1 preserves the call-log invariant. -/
theorem b1_good (g : ℚ → ℚ → Option String) (ps : List Photo)
    (s : ProcessPhotoMetadata.GS) (h : ProcessPhotoMetadata.GoodGS s) :
    ProcessPhotoMetadata.GoodGS (ProcessPhotoMetadata.b1 g ps s) := by
  unfold ProcessPhotoMetadata.b1
  refine List.foldlRecOn _ _ _ h ?_
  intro s' h' k _
  exact reverseGeocode_good g s' _ _ h'

/-- The B3 loop preserves the call-log invariant. -/
theorem b3Loop_good (g : ℚ → ℚ → Option String)
    (near : Coord → Coord → Bool) (idxs : List ℕ) (fuel : ℕ) :
    ∀ (ph : List Photo) (gs : ProcessPhotoMetadata.GS),
      ProcessPhotoMetadata.GoodGS gs →
      ProcessPhotoMetadata.GoodGS
        (ProcessPhotoMetadata.b3Loop g near idxs fuel (ph, gs)).2 := by
  induction fuel with
  | zero => intro ph gs h; exact h
  | succ fuel ih =>
    intro ph gs h
    rw [ProcessPhotoMetadata.b3Loop]
    cases hf : idxs.find? (fun i =>
        hasCoords (pget ph i) && !truthyStr (pget ph i).locationName) with
    | none => exact h
    | some j =>
      dsimp only
      split
      · exact ih _ _ (reverseGeocode_good g gs _ _ h)
      · exact ih _ _ (reverseGeocode_good g gs _ _ h)

/-- A per-day step preserves the call-log invariant. -/
theorem dayStep_good (g : ℚ → ℚ → Option String)
    (near : Coord → Coord → Bool) (ps0 : List Photo)
    (st : ProcessPhotoMetadata.BState) (d : ℤ)
    (h : ProcessPhotoMetadata.GoodGS st.geo) :
    ProcessPhotoMetadata.GoodGS
      (ProcessPhotoMetadata.dayStep g near ps0 st d).geo :=
  b3Loop_good g near _ 5 _ _ h

/-- The geo state a run returns. -/
theorem runPipeline_geo (g : ℚ → ℚ → Option String)
    (near : Coord → Coord → Bool) (ps : List Photo)
    (c0 : List (ProcessPhotoMetadata.Key × String)) :
    (ProcessPhotoMetadata.runPipeline g near ps c0).geo
      = if (withDate ps).isEmpty then (⟨c0, []⟩ : ProcessPhotoMetadata.GS)
        else
          ((sortedDays ps).foldl (ProcessPhotoMetadata.dayStep g near ps)
            ⟨ProcessPhotoMetadata.photosA3 ps,
             ProcessPhotoMetadata.b1 g ps ⟨c0, []⟩, []⟩).geo := by
  unfold ProcessPhotoMetadata.runPipeline
  split <;> rfl

/-- An empty call log satisfies the invariant. -/
theorem goodGS_init (c0 : List (ProcessPhotoMetadata.Key × String)) :
    ProcessPhotoMetadata.GoodGS ⟨c0, []⟩ := by
  intro k
  exact ⟨rfl, fun v hv => by cases hv⟩

/-- All the calls of a cell but possibly the last failed, so at most one
succeeded. -/
theorem filter_isSome_length_le_one (l : List (Option String))
    (h : l.dropLast.all Option.isNone = true) :
    (l.filter Option.isSome).length ≤ 1 := by
  cases hl : l.getLast? with
  | none =>
    rw [List.getLast?_eq_none_iff.mp hl]
    simp
  | some o =>
    obtain ⟨ys, rfl⟩ := List.getLast?_eq_some_iff.mp hl
    rw [List.dropLast_concat] at h
    rw [List.filter_append]
    have hys2 : ys.filter Option.isSome = [] := by
      rw [List.filter_eq_nil_iff]
      intro a ha
      have := List.all_eq_true.mp h a ha
      rw [Option.isNone_iff_eq_none] at this
      rw [this]
      simp
    rw [hys2]
    cases o <;> simp

/-- C5 counterexample: with a resolver that always fails, a single-photo
run issues *six* network calls for one and the same quantized cell (one
from the anchor resolution, five from the bounded retry loop): failed
resolutions are not cached, so a looked-up cell is queried again. -/
theorem c5_counterexample :
    (ProcessPhotoMetadata.callsFor
        (ProcessPhotoMetadata.runPipeline failingResolver nearEq
          cachePhotos []).geo ((false, 100000), (false, 100000))).length = 6
    ∧ ¬ (6 : ℕ) ≤ 1 :=
  ⟨by decide, by decide⟩

/-- C5 (amended): across a single run, every quantized cell triggers at
most one *successful* reverse-geocoding call — once a cell resolves, its
name is cached and no further network call is issued for it; only *failed*
calls (which are not cached) can recur for a cell. -/
theorem c5_at_most_one_successful_call (g : ℚ → ℚ → Option String)
    (near : Coord → Coord → Bool) (ps : List Photo)
    (c0 : List (ProcessPhotoMetadata.Key × String))
    (k : ProcessPhotoMetadata.Key) :
    (ProcessPhotoMetadata.callsFor
        (ProcessPhotoMetadata.runPipeline g near ps c0).geo k).dropLast.all
        Option.isNone = true
    ∧ ((ProcessPhotoMetadata.callsFor
        (ProcessPhotoMetadata.runPipeline g near ps c0).geo k).filter
        Option.isSome).length ≤ 1 := by
  have hgood : ProcessPhotoMetadata.GoodGS
      (ProcessPhotoMetadata.runPipeline g near ps c0).geo := by
    rw [runPipeline_geo]
    split
    · exact goodGS_init c0
    · refine List.foldlRecOn
        (motive := fun bs : ProcessPhotoMetadata.BState =>
          ProcessPhotoMetadata.GoodGS bs.geo) _ _ _
        (b1_good g ps _ (goodGS_init c0)) ?_
      intro bs hbs d _
      exact dayStep_good g near ps bs d hbs
  exact ⟨(hgood k).1, filter_isSome_length_le_one _ (hgood k).1⟩

/-- The per-key bound is tight in keys, not in numeric cells: a photo at
latitude `-0.00002` yields *two* successful calls for one and the same
4-decimal cell, because the anchor resolution re-parses the key
`"-0.0000"` to `-0` and re-renders it as `"0.0000"` (caching the answer
there), while the photo-level retry renders the raw latitude back to
`"-0.0000"` — a distinct key, so a second network call is made and
succeeds.  Both keys denote the numeric cell center `0`. -/
theorem negzero_two_successful_calls :
    (ProcessPhotoMetadata.runPipeline newResolver nearEq negZeroPhotos
        []).geo.log
      = [(((false, 0), (false, 100000)), some "New"),
         (((true, 0), (false, 100000)), some "New")]
    ∧ unquant (true, 0) = unquant (false, 0) :=
  ⟨by decide, by decide⟩

/-! ### Idempotence: simulation of a run by the cache-free computation -/

/-- Re-quantizing the parsed-back cell center recovers the cell: the cache
keys B1 resolves are exactly the day-coordinate cells. -/
theorem quant_unquant (s : Bool) (n : ℕ) (hk : ¬(s = true ∧ n = 0)) :
    quant (unquant (s, n)) = (s, n) := by
  unfold quant unquant
  set m : ℤ := if (s, n).1 then -((s, n).2 : ℤ) else ((s, n).2 : ℤ)
    with hmdef
  set x := Rat.divInt m 10000 with hxdef
  have hd : ((x.den : ℚ)) ≠ 0 := by
    exact_mod_cast x.pos.ne'
  have hx : (x : ℚ) * 10000 = (m : ℚ) := by
    rw [hxdef, Rat.divInt_eq_div]
    field_simp
  rw [← Rat.num_div_den x] at hx
  field_simp at hx
  have hid : x.num * 10000 = m * (x.den : ℤ) := by exact_mod_cast hx
  have hdenpos : (0 : ℤ) < (x.den : ℤ) := by exact_mod_cast x.pos
  cases s with
  | false =>
    have hm : m = (n : ℤ) := by rw [hmdef]; simp
    have hnum : ¬ x.num < 0 := by
      intro hneg
      have h1 : x.num * 10000 < 0 :=
        mul_neg_of_neg_of_pos hneg (by norm_num)
      rw [hid, hm] at h1
      have h2 : (0 : ℤ) ≤ (n : ℤ) * (x.den : ℤ) :=
        mul_nonneg (Int.natCast_nonneg n) (le_of_lt hdenpos)
      omega
    rw [if_neg hnum]
    have he : 20000 * x.num + (x.den : ℤ)
        = (x.den : ℤ) * (1 + (n : ℤ) * 2) := by
      have := hid
      rw [hm] at this
      linear_combination 2 * this
    rw [he, Int.fdiv_eq_ediv _ (by positivity),
      show (2 : ℤ) * (x.den : ℤ) = (x.den : ℤ) * 2 by ring,
      Int.mul_ediv_mul_of_pos _ _ hdenpos,
      Int.add_mul_ediv_right _ _ (by norm_num : (2:ℤ) ≠ 0)]
    norm_num
  | true =>
    have hn : n ≠ 0 := fun h => hk ⟨rfl, h⟩
    have hm : m = -(n : ℤ) := by rw [hmdef]; simp
    have hnpos : (0 : ℤ) < (n : ℤ) := by
      exact_mod_cast Nat.pos_of_ne_zero hn
    have hnum : x.num < 0 := by
      by_contra h
      have h1 : (0 : ℤ) ≤ x.num * 10000 :=
        mul_nonneg (not_lt.mp h) (by norm_num)
      rw [hid, hm] at h1
      have h2 : (-(n : ℤ)) * (x.den : ℤ) < 0 :=
        mul_neg_of_neg_of_pos (neg_lt_zero.mpr hnpos) hdenpos
      omega
    rw [if_pos hnum]
    have he : 20000 * (-x.num) + (x.den : ℤ)
        = (x.den : ℤ) * (1 + (n : ℤ) * 2) := by
      have := hid
      rw [hm] at this
      linear_combination (-2) * this
    rw [he, Int.fdiv_eq_ediv _ (by positivity),
      show (2 : ℤ) * (x.den : ℤ) = (x.den : ℤ) * 2 by ring,
      Int.mul_ediv_mul_of_pos _ _ hdenpos,
      Int.add_mul_ediv_right _ _ (by norm_num : (2:ℤ) ≠ 0)]
    norm_num

/-- With a cell-respecting resolver and a consistent cache, a
`reverseGeocode` call returns exactly the resolver's answer, keeps the
cache consistent, keeps every covered cell covered, and covers its own
cell. -/
theorem reverseGeocode_sim (g : ℚ → ℚ → Option String)
    (s : ProcessPhotoMetadata.GS) (lat lon : ℚ)
    (hg : ProcessPhotoMetadata.CellResp g)
    (hc : ProcessPhotoMetadata.Consistent g s.cache) :
    (ProcessPhotoMetadata.reverseGeocode g s lat lon).1 = g lat lon
    ∧ ProcessPhotoMetadata.Consistent g
        (ProcessPhotoMetadata.reverseGeocode g s lat lon).2.cache
    ∧ (∀ k, ProcessPhotoMetadata.Covered g s.cache k →
        ProcessPhotoMetadata.Covered g
          (ProcessPhotoMetadata.reverseGeocode g s lat lon).2.cache k)
    ∧ ProcessPhotoMetadata.Covered g
        (ProcessPhotoMetadata.reverseGeocode g s lat lon).2.cache
        (quant lat, quant lon) := by
  simp only [ProcessPhotoMetadata.reverseGeocode]
  cases hlook : ProcessPhotoMetadata.lookupCache s.cache
      (quant lat, quant lon) with
  | some v =>
    dsimp only
    have hv : g (unquant (quant lat)) (unquant (quant lon)) = some v :=
      hc (quant lat, quant lon) v hlook
    refine ⟨?_, hc, fun k hk => hk, ?_⟩
    · rw [hg lat lon, hv]
    · unfold ProcessPhotoMetadata.Covered
      rw [hlook, hv]
  | none =>
    cases hgv : g lat lon with
    | some name =>
      dsimp only
      have hv : g (unquant (quant lat)) (unquant (quant lon)) = some name := by
        rw [← hg lat lon, hgv]
      refine ⟨rfl, ?_, ?_, ?_⟩
      · intro k v hk
        rw [lookupCache_cons] at hk
        by_cases hkey : ((quant lat, quant lon) : ProcessPhotoMetadata.Key)
            = k
        · rw [if_pos hkey] at hk
          cases hk
          rw [← hkey]
          exact hv
        · rw [if_neg hkey] at hk
          exact hc k v hk
      · intro k hk
        unfold ProcessPhotoMetadata.Covered at hk ⊢
        rw [lookupCache_cons]
        by_cases hkey : ((quant lat, quant lon) : ProcessPhotoMetadata.Key)
            = k
        · rw [if_pos hkey, ← hkey]
          exact hv.symm
        · rw [if_neg hkey]
          exact hk
      · unfold ProcessPhotoMetadata.Covered
        rw [lookupCache_cons, if_pos rfl]
        exact hv.symm
    | none =>
      dsimp only
      have hv : g (unquant (quant lat)) (unquant (quant lon)) = none := by
        rw [← hg lat lon, hgv]
      refine ⟨rfl, hc, fun k hk => hk, ?_⟩
      unfold ProcessPhotoMetadata.Covered
      rw [hlook, hv]

/-- `insertUniq` keeps what was there. -/
theorem mem_insertUniq_of_mem (l : List ProcessPhotoMetadata.Key)
    (k a : ProcessPhotoMetadata.Key) (h : a ∈ l) :
    a ∈ ProcessPhotoMetadata.insertUniq l k := by
  unfold ProcessPhotoMetadata.insertUniq
  split
  · exact h
  · exact List.mem_append_left _ h

/-- `insertUniq` contains its argument. -/
theorem mem_insertUniq_self (l : List ProcessPhotoMetadata.Key)
    (k : ProcessPhotoMetadata.Key) :
    k ∈ ProcessPhotoMetadata.insertUniq l k := by
  unfold ProcessPhotoMetadata.insertUniq
  split
  · assumption
  · exact List.mem_append_right _ (List.mem_singleton.mpr rfl)

/-- Everything enumerated ends up in the deduplicated fold. -/
theorem mem_insertUniq_fold (l : List ProcessPhotoMetadata.Key) :
    ∀ (init : List ProcessPhotoMetadata.Key)
      (a : ProcessPhotoMetadata.Key), a ∈ l ∨ a ∈ init →
      a ∈ l.foldl ProcessPhotoMetadata.insertUniq init := by
  induction l with
  | nil =>
    intro init a h
    rcases h with h | h
    · cases h
    · exact h
  | cons b l ih =>
    intro init a h
    rw [List.foldl_cons]
    refine ih _ a ?_
    rcases h with h | h
    · rcases List.mem_cons.mp h with rfl | h
      · exact Or.inr (mem_insertUniq_self init a)
      · exact Or.inl h
    · exact Or.inr (mem_insertUniq_of_mem init b a h)

/-- Every day's quantized anchor cell is in the resolve set. -/
theorem mem_coordsToResolve (ps : List Photo) (d : ℤ)
    (hd : d ∈ sortedDays ps) :
    quantKey ((ProcessPhotoMetadata.dayCoords ps d).latitude,
        (ProcessPhotoMetadata.dayCoords ps d).longitude)
      ∈ ProcessPhotoMetadata.coordsToResolve ps := by
  unfold ProcessPhotoMetadata.coordsToResolve
  exact mem_insertUniq_fold _ _ _ (Or.inl (List.mem_map_of_mem _ hd))

/-- Conversely, `insertUniq`-folding introduces nothing new. -/
theorem mem_of_mem_insertUniq_fold (l : List ProcessPhotoMetadata.Key) :
    ∀ (init : List ProcessPhotoMetadata.Key)
      (a : ProcessPhotoMetadata.Key),
      a ∈ l.foldl ProcessPhotoMetadata.insertUniq init →
      a ∈ init ∨ a ∈ l := by
  induction l with
  | nil => intro init a ha; exact Or.inl ha
  | cons b l ih =>
    intro init a ha
    rw [List.foldl_cons] at ha
    rcases ih _ a ha with h | h
    · unfold ProcessPhotoMetadata.insertUniq at h
      by_cases hb : b ∈ init
      · rw [if_pos hb] at h
        exact Or.inl h
      · rw [if_neg hb] at h
        rcases List.mem_append.mp h with h | h
        · exact Or.inl h
        · rcases List.mem_singleton.mp h with rfl
          exact Or.inr (List.mem_cons_self a l)
    · exact Or.inr (List.mem_cons_of_mem b h)

/-- Every key in the resolve set is some day's quantized anchor cell. -/
theorem mem_coordsToResolve_src (ps : List Photo)
    (k : ProcessPhotoMetadata.Key)
    (hk : k ∈ ProcessPhotoMetadata.coordsToResolve ps) :
    ∃ d ∈ sortedDays ps,
      quantKey ((ProcessPhotoMetadata.dayCoords ps d).latitude,
        (ProcessPhotoMetadata.dayCoords ps d).longitude) = k := by
  unfold ProcessPhotoMetadata.coordsToResolve at hk
  rcases mem_of_mem_insertUniq_fold _ _ _ hk with h | h
  · exact absurd h (List.not_mem_nil k)
  · exact List.mem_map.mp h

/-- The B1 fold keeps the cache consistent, keeps covered cells covered,
and covers every cell it visits. -/
theorem b1_fold_sim (g : ℚ → ℚ → Option String)
    (hg : ProcessPhotoMetadata.CellResp g) :
    ∀ (l : List ProcessPhotoMetadata.Key) (s : ProcessPhotoMetadata.GS),
      (∀ k ∈ l, quant (unquant k.1) = k.1 ∧ quant (unquant k.2) = k.2) →
      ProcessPhotoMetadata.Consistent g s.cache →
      ProcessPhotoMetadata.Consistent g
        ((l.foldl (fun s k => (ProcessPhotoMetadata.reverseGeocode g s
          (unquant k.1) (unquant k.2)).2) s).cache)
      ∧ (∀ k, ProcessPhotoMetadata.Covered g s.cache k →
          ProcessPhotoMetadata.Covered g
            ((l.foldl (fun s k => (ProcessPhotoMetadata.reverseGeocode g s
              (unquant k.1) (unquant k.2)).2) s).cache) k)
      ∧ (∀ k ∈ l, ProcessPhotoMetadata.Covered g
          ((l.foldl (fun s k => (ProcessPhotoMetadata.reverseGeocode g s
            (unquant k.1) (unquant k.2)).2) s).cache) k) := by
  intro l
  induction l with
  | nil =>
    intro s _ hc
    exact ⟨hc, fun k hk => hk, fun k hk => absurd hk (List.not_mem_nil k)⟩
  | cons b l ih =>
    intro s hkl hc
    rw [List.foldl_cons]
    have hsim := reverseGeocode_sim g s (unquant b.1) (unquant b.2) hg hc
    have hkey : ((quant (unquant b.1), quant (unquant b.2)) :
        ProcessPhotoMetadata.Key) = b := by
      obtain ⟨hk1, hk2⟩ := hkl b (List.mem_cons_self b l)
      rw [hk1, hk2]
    rw [hkey] at hsim
    obtain ⟨-, hcons, hpres, hcov⟩ := hsim
    obtain ⟨ih1, ih2, ih3⟩ := ih _
      (fun k hk => hkl k (List.mem_cons_of_mem b hk)) hcons
    refine ⟨ih1, ?_, ?_⟩
    · intro k hk
      exact ih2 k (hpres k hk)
    · intro k hk
      rcases List.mem_cons.mp hk with rfl | hk
      · exact ih2 k hcov
      · exact ih3 k hk

/-- With a cell-respecting resolver and a consistent cache, the stateful B3
loop computes exactly the cache-free one, and the cache stays consistent
with covered cells covered. -/
theorem b3Loop_sim (g : ℚ → ℚ → Option String)
    (near : Coord → Coord → Bool) (idxs : List ℕ)
    (hg : ProcessPhotoMetadata.CellResp g) (fuel : ℕ) :
    ∀ (ph : List Photo) (gs : ProcessPhotoMetadata.GS),
      ProcessPhotoMetadata.Consistent g gs.cache →
      (ProcessPhotoMetadata.b3Loop g near idxs fuel (ph, gs)).1
          = ProcessPhotoMetadata.pureB3Loop g near idxs fuel ph
      ∧ ProcessPhotoMetadata.Consistent g
          (ProcessPhotoMetadata.b3Loop g near idxs fuel (ph, gs)).2.cache
      ∧ ∀ k, ProcessPhotoMetadata.Covered g gs.cache k →
          ProcessPhotoMetadata.Covered g
            (ProcessPhotoMetadata.b3Loop g near idxs fuel (ph, gs)).2.cache
            k := by
  induction fuel with
  | zero =>
    intro ph gs hc
    exact ⟨rfl, hc, fun k hk => hk⟩
  | succ fuel ih =>
    intro ph gs hc
    rw [ProcessPhotoMetadata.b3Loop, ProcessPhotoMetadata.pureB3Loop]
    cases hf : idxs.find? (fun i =>
        hasCoords (pget ph i) && !truthyStr (pget ph i).locationName) with
    | none => exact ⟨rfl, hc, fun k hk => hk⟩
    | some j =>
      dsimp only
      have hsim := reverseGeocode_sim g gs ((pget ph j).latitude.getD 0)
        ((pget ph j).longitude.getD 0) hg hc
      obtain ⟨hval, hcons, hpres, -⟩ := hsim
      rw [hval]
      split
      · obtain ⟨ih1, ih2, ih3⟩ := ih _ _ hcons
        exact ⟨ih1, ih2, fun k hk => ih3 k (hpres k hk)⟩
      · obtain ⟨ih1, ih2, ih3⟩ := ih _ _ hcons
        exact ⟨ih1, ih2, fun k hk => ih3 k (hpres k hk)⟩

/-- With a cell-respecting resolver, a consistent cache covering the day's
anchor cell, a per-day step computes exactly the cache-free step. -/
theorem dayStep_sim (g : ℚ → ℚ → Option String)
    (near : Coord → Coord → Bool) (ps0 : List Photo)
    (hg : ProcessPhotoMetadata.CellResp g)
    (st : ProcessPhotoMetadata.BState) (d : ℤ)
    (hc : ProcessPhotoMetadata.Consistent g st.geo.cache)
    (hcov : ProcessPhotoMetadata.Covered g st.geo.cache
      (quantKey ((ProcessPhotoMetadata.dayCoords ps0 d).latitude,
        (ProcessPhotoMetadata.dayCoords ps0 d).longitude))) :
    (ProcessPhotoMetadata.dayStep g near ps0 st d).photos
        = (ProcessPhotoMetadata.pureDayStep g near ps0
            (st.photos, st.dayLocations) d).1
    ∧ (ProcessPhotoMetadata.dayStep g near ps0 st d).dayLocations
        = (ProcessPhotoMetadata.pureDayStep g near ps0
            (st.photos, st.dayLocations) d).2
    ∧ ProcessPhotoMetadata.Consistent g
        (ProcessPhotoMetadata.dayStep g near ps0 st d).geo.cache
    ∧ ∀ k, ProcessPhotoMetadata.Covered g st.geo.cache k →
        ProcessPhotoMetadata.Covered g
          (ProcessPhotoMetadata.dayStep g near ps0 st d).geo.cache k := by
  unfold ProcessPhotoMetadata.Covered at hcov
  simp only [ProcessPhotoMetadata.dayStep, ProcessPhotoMetadata.pureDayStep]
  rw [hcov]
  obtain ⟨h1, h2, h3⟩ := b3Loop_sim g near (grp ps0 d) hg 5
    (ProcessPhotoMetadata.b2Apply near (grp ps0 d)
      ((ProcessPhotoMetadata.dayCoords ps0 d).latitude,
       (ProcessPhotoMetadata.dayCoords ps0 d).longitude)
      (g (unquant (quantKey ((ProcessPhotoMetadata.dayCoords ps0 d).latitude,
        (ProcessPhotoMetadata.dayCoords ps0 d).longitude)).1)
        (unquant (quantKey ((ProcessPhotoMetadata.dayCoords ps0 d).latitude,
          (ProcessPhotoMetadata.dayCoords ps0 d).longitude)).2))
      st.photos)
    st.geo hc
  exact ⟨h1, rfl, h2, h3⟩

/-- The whole per-day fold computes exactly the cache-free fold. -/
theorem daysFold_sim (g : ℚ → ℚ → Option String)
    (near : Coord → Coord → Bool) (ps0 : List Photo)
    (hg : ProcessPhotoMetadata.CellResp g) :
    ∀ (ds : List ℤ) (st : ProcessPhotoMetadata.BState),
      ProcessPhotoMetadata.Consistent g st.geo.cache →
      (∀ k ∈ ProcessPhotoMetadata.coordsToResolve ps0,
        ProcessPhotoMetadata.Covered g st.geo.cache k) →
      (∀ d ∈ ds,
        quantKey ((ProcessPhotoMetadata.dayCoords ps0 d).latitude,
          (ProcessPhotoMetadata.dayCoords ps0 d).longitude)
          ∈ ProcessPhotoMetadata.coordsToResolve ps0) →
      ((ds.foldl (ProcessPhotoMetadata.dayStep g near ps0) st).photos
          = (ds.foldl (ProcessPhotoMetadata.pureDayStep g near ps0)
              (st.photos, st.dayLocations)).1
        ∧ (ds.foldl (ProcessPhotoMetadata.dayStep g near ps0) st).dayLocations
          = (ds.foldl (ProcessPhotoMetadata.pureDayStep g near ps0)
              (st.photos, st.dayLocations)).2)
      ∧ ProcessPhotoMetadata.Consistent g
          (ds.foldl (ProcessPhotoMetadata.dayStep g near ps0) st).geo.cache := by
  intro ds
  induction ds with
  | nil => intro st hc _ _; exact ⟨⟨rfl, rfl⟩, hc⟩
  | cons d ds ih =>
    intro st hc hcovset hdays
    rw [List.foldl_cons, List.foldl_cons]
    obtain ⟨h1, h2, h3, h4⟩ := dayStep_sim g near ps0 hg st d hc
      (hcovset _ (hdays d (List.mem_cons_self d ds)))
    have hcov' : ∀ k ∈ ProcessPhotoMetadata.coordsToResolve ps0,
        ProcessPhotoMetadata.Covered g
          (ProcessPhotoMetadata.dayStep g near ps0 st d).geo.cache k :=
      fun k hk => h4 k (hcovset k hk)
    obtain ⟨⟨ih1, ih2⟩, ih3⟩ := ih (ProcessPhotoMetadata.dayStep g near ps0
      st d) h3 hcov' (fun d' hd' => hdays d' (List.mem_cons_of_mem d hd'))
    refine ⟨⟨?_, ?_⟩, ih3⟩
    · rw [ih1, h1, h2]
    · rw [ih2, h1, h2]

/-- With a cell-respecting resolver and a consistent initial cache, a run's
photo and day-entry outputs are exactly the cache-free computation — they
do not depend on the initial cache at all. -/
theorem runPipeline_pure (g : ℚ → ℚ → Option String)
    (near : Coord → Coord → Bool) (ps : List Photo)
    (c0 : List (ProcessPhotoMetadata.Key × String))
    (hg : ProcessPhotoMetadata.CellResp g)
    (hkeys : ∀ k ∈ ProcessPhotoMetadata.coordsToResolve ps,
      quant (unquant k.1) = k.1 ∧ quant (unquant k.2) = k.2)
    (hc0 : ProcessPhotoMetadata.Consistent g c0) :
    (ProcessPhotoMetadata.runPipeline g near ps c0).photos
        = (ProcessPhotoMetadata.pureRun g near ps).1
    ∧ (ProcessPhotoMetadata.runPipeline g near ps c0).dayEntries
        = (ProcessPhotoMetadata.pureRun g near ps).2
    ∧ ProcessPhotoMetadata.Consistent g
        (ProcessPhotoMetadata.runPipeline g near ps c0).geo.cache := by
  by_cases he : (withDate ps).isEmpty
  · rw [runPipeline_photos, if_pos he, runPipeline_dayEntries, if_pos he,
      runPipeline_geo, if_pos he]
    unfold ProcessPhotoMetadata.pureRun
    rw [if_pos he]
    exact ⟨rfl, rfl, hc0⟩
  · have hb1eq : ProcessPhotoMetadata.b1 g ps ⟨c0, []⟩
        = (ProcessPhotoMetadata.coordsToResolve ps).foldl
          (fun s k => (ProcessPhotoMetadata.reverseGeocode g s
            (unquant k.1) (unquant k.2)).2) ⟨c0, []⟩ := rfl
    obtain ⟨hb1c, -, hb1cov⟩ := b1_fold_sim g hg
      (ProcessPhotoMetadata.coordsToResolve ps)
      ⟨c0, []⟩ hkeys hc0
    rw [← hb1eq] at hb1c hb1cov
    obtain ⟨⟨hph, hloc⟩, hcons⟩ := daysFold_sim g near ps hg (sortedDays ps)
      ⟨ProcessPhotoMetadata.photosA3 ps,
       ProcessPhotoMetadata.b1 g ps ⟨c0, []⟩, []⟩
      hb1c hb1cov (fun d hd => mem_coordsToResolve ps d hd)
    rw [runPipeline_photos, if_neg he, runPipeline_dayEntries, if_neg he,
      runPipeline_geo, if_neg he]
    unfold ProcessPhotoMetadata.pureRun
    rw [if_neg he]
    exact ⟨by rw [hph, hloc], by rw [hph, hloc], hcons⟩

/-- The empty cache is consistent with every resolver. -/
theorem consistent_nil (g : ℚ → ℚ → Option String) :
    ProcessPhotoMetadata.Consistent g [] := by
  intro k v hk
  simp [ProcessPhotoMetadata.lookupCache] at hk

/-- C7 (amended): when the deterministic resolver's answer depends only on
the 4-decimal quantized cell, and no day anchor renders to a negative-zero
`toFixed(4)` key (the keys `"-0.0000"` re-parse to `-0` and re-render as
`"0.0000"`, so B1 would cache the day's answer under a different key than
B2 looks up), running the pipeline twice on the same unenriched input —
the second time with the warm cache left by the first run — yields
identical photo enrichment and identical day entries.  (When the resolver
distinguishes raw coordinates within one cell this fails: see the
counterexample; and at a negative-zero anchor key it fails even with a
constant resolver: see `negzero_warm_neq_cold`.) -/
theorem c7_idempotent_of_cell_resp (g : ℚ → ℚ → Option String)
    (near : Coord → Coord → Bool) (ps : List Photo)
    (hg : ProcessPhotoMetadata.CellResp g)
    (hkeys : ∀ d ∈ sortedDays ps,
      quant (unquant (quantKey ((ProcessPhotoMetadata.dayCoords ps
            d).latitude, (ProcessPhotoMetadata.dayCoords ps
            d).longitude)).1)
          = (quantKey ((ProcessPhotoMetadata.dayCoords ps d).latitude,
              (ProcessPhotoMetadata.dayCoords ps d).longitude)).1
        ∧ quant (unquant (quantKey ((ProcessPhotoMetadata.dayCoords ps
            d).latitude, (ProcessPhotoMetadata.dayCoords ps
            d).longitude)).2)
          = (quantKey ((ProcessPhotoMetadata.dayCoords ps d).latitude,
              (ProcessPhotoMetadata.dayCoords ps d).longitude)).2) :
    (ProcessPhotoMetadata.runPipeline g near ps
        ((ProcessPhotoMetadata.runPipeline g near ps []).geo.cache)).photos
      = (ProcessPhotoMetadata.runPipeline g near ps []).photos
    ∧ (ProcessPhotoMetadata.runPipeline g near ps
        ((ProcessPhotoMetadata.runPipeline g near ps []).geo.cache)).dayEntries
      = (ProcessPhotoMetadata.runPipeline g near ps []).dayEntries := by
  have hkeys' : ∀ k ∈ ProcessPhotoMetadata.coordsToResolve ps,
      quant (unquant k.1) = k.1 ∧ quant (unquant k.2) = k.2 := by
    intro k hk
    obtain ⟨d, hd, hdk⟩ := mem_coordsToResolve_src ps k hk
    rw [← hdk]
    exact hkeys d hd
  obtain ⟨h1p, h1e, h1c⟩ := runPipeline_pure g near ps [] hg hkeys'
    (consistent_nil g)
  obtain ⟨h2p, h2e, -⟩ := runPipeline_pure g near ps
    ((ProcessPhotoMetadata.runPipeline g near ps []).geo.cache) hg hkeys' h1c
  exact ⟨h2p.trans h1p.symm, h2e.trans h1e.symm⟩

/-- C7 witness: with a constant (hence cell-respecting) resolver, a warm
re-run reproduces the cold run's photos. -/
theorem c7_idempotent_of_cell_resp_witness :
    (ProcessPhotoMetadata.runPipeline newResolver nearEq cachePhotos
        ((ProcessPhotoMetadata.runPipeline newResolver nearEq cachePhotos
          []).geo.cache)).photos
      = (ProcessPhotoMetadata.runPipeline newResolver nearEq cachePhotos
          []).photos :=
  (c7_idempotent_of_cell_resp newResolver nearEq cachePhotos
    (fun _ _ => rfl) (by decide)).1

/-- C7 counterexample: a deterministic resolver that fails at the cell
center `lat = 1` but succeeds at the photo's raw latitude `1.00001` makes
the cold run and the warm re-run produce different day entries — the warm
run's B2 finds the cell cached (by the cold run's B3 photo resolution) and
so names the day, which the cold run did not. -/
theorem c7_counterexample :
    (ProcessPhotoMetadata.runPipeline rawSensitiveResolver nearEq rawPhotos
        ((ProcessPhotoMetadata.runPipeline rawSensitiveResolver nearEq
          rawPhotos []).geo.cache)).dayEntries
      ≠ (ProcessPhotoMetadata.runPipeline rawSensitiveResolver nearEq
          rawPhotos []).dayEntries := by decide

/-- The negative-zero proviso in the amended C7 is likewise necessary: with
a *constant* (hence cell-respecting) resolver and one photo at latitude
`-0.00002`, the day anchor's key is `"-0.0000"`, B1 caches the answer
under the re-rendered key `"0.0000"`, so the cold run's B2 lookup misses
and leaves the day unnamed — while the warm re-run finds `"-0.0000"`
cached (by the cold run's B3 photo resolution) and names the day. -/
theorem negzero_warm_neq_cold :
    (ProcessPhotoMetadata.runPipeline newResolver nearEq negZeroPhotos
        ((ProcessPhotoMetadata.runPipeline newResolver nearEq negZeroPhotos
          []).geo.cache)).dayEntries
      ≠ (ProcessPhotoMetadata.runPipeline newResolver nearEq negZeroPhotos
          []).dayEntries := by decide
